import Mathlib

/-!
# Verification of the vpn-aggregator transform chain

A shallow embedding of the core pipeline of the `vpn-aggregator` repository
(`scripts/parser.py`, `scripts/enricher.py`, `scripts/filters.py`,
`scripts/profiler.py`) together with proofs settling the specification
claims about it.

Modelling conventions:
* Python `str` is modelled as `List Char` (`Str`); Python byte strings as
  `List Nat` with each entry `< 256`.
* Dynamic Python values stored in a node's `extra` dictionary are modelled
  by the scalar type `PyVal` (`str`/`int`/`bool`/`None`).  The pipeline
  itself only ever stores scalars in the bag; nested JSON payloads are
  outside this model (see the `json` section below).
* Python `dict` is modelled as an insertion-ordered association list with
  unique keys (`Bag`); `dict.get`, item assignment and `setdefault` are
  modelled by `Bag.get`, `Bag.set` and `Bag.setdefault`.
* Fallible operations (`int(...)`, `base64.b64decode`, `bytes.decode`,
  `json.loads`) return `Option`; the blanket `try/except` blocks of the
  source map a `none` from any step to an overall `none`.
* Network effects of the enricher (DNS, the two GeoIP readers, TCP ping)
  are oracles supplied in an `EnrichEnv` record; an oracle returning
  `none` models the corresponding `except Exception` branch.
-/

namespace Vpn

/-- Python strings, modelled as lists of unicode scalar characters. -/
abbrev Str := List Char

/-- Scalar Python values as stored in a node's `extra` dictionary. -/
inductive PyVal where
  | str (s : Str)
  | int (n : ℤ)
  | bool (b : Bool)
  | none
  deriving DecidableEq, Repr

instance : Inhabited PyVal := ⟨.none⟩

/-- Python truthiness for the scalar values (`bool(v)`). -/
def PyVal.truthy : PyVal → Bool
  | .str s => !s.isEmpty
  | .int n => n ≠ 0
  | .bool b => b
  | .none => false

/-- A Python `dict[str, scalar]`: insertion-ordered association list. -/
abbrev Bag := List (Str × PyVal)

/-- `d.get(k)` (also `k in d` via `isSome`). -/
def Bag.get (b : Bag) (k : Str) : Option PyVal :=
  (b.find? (fun kv => kv.1 = k)).map (·.2)

/-- `d[k] = v`: replace in place if the key exists, else append. -/
def Bag.set (b : Bag) (k : Str) (v : PyVal) : Bag :=
  if (b.find? (fun kv => kv.1 = k)).isSome then
    b.map (fun kv => if kv.1 = k then (kv.1, v) else kv)
  else
    b ++ [(k, v)]

/-- `d.setdefault(k, v)`: insert only when the key is absent. -/
def Bag.setdefault (b : Bag) (k : Str) (v : PyVal) : Bag :=
  if (b.find? (fun kv => kv.1 = k)).isSome then b else b ++ [(k, v)]

/-- Parsed VPN node (`parser.VPNNode`). `port` is `ℤ`: the source applies
`int(...)` with no range check, and `ss` descriptors can carry a sign. -/
structure VPNNode where
  protocol : Str
  host : Str
  port : ℤ
  uuid : Option Str := Option.none
  password : Option Str := Option.none
  remark : Str := []
  tls : Bool := false
  sni : Option Str := Option.none
  extra : Bag := []
  deriving DecidableEq, Repr

/-! ## NodeFilter (`scripts/filters.py`) -/

/-- The fixed EU country set of `NodeFilter.__init__` (and `Profiler`). -/
def euCountries : List Str :=
  ["DE", "NL", "FR", "PL", "SE", "FI", "IT", "ES", "CZ", "AT", "BE",
   "DK", "IE", "PT", "RO", "BG", "SK", "SI", "GR", "HU", "HR", "EE",
   "LV", "LT", "LU", "CY", "MT"].map String.toList

/-- Configuration consumed by `NodeFilter` (from `config["filters"]`). -/
structure FilterConfig where
  eu_only : Bool := false
  exclude_countries : List Str := []
  whitelist_countries : List Str := []
  asn_blacklist : List ℤ := []
  min_ping_ms : Option ℤ := Option.none
  max_ping_ms : Option ℤ := Option.none
  deriving Repr

/-- `n.uuid or n.password or ""` — the credential slot of the dedup key. -/
def credFallback (n : VPNNode) : Str :=
  match n.uuid with
  | some s => if s.isEmpty then (match n.password with
      | some t => if t.isEmpty then [] else t
      | Option.none => []) else s
  | Option.none => match n.password with
      | some t => if t.isEmpty then [] else t
      | Option.none => []

/-- The dedup key tuple of `NodeFilter._dedup`. -/
def dedupKey (n : VPNNode) : Str × Str × ℤ × Str :=
  (n.protocol, n.host, n.port, credFallback n)

/-- The scan loop of `NodeFilter._dedup` with its `seen` set. -/
def dedupGo (seen : List (Str × Str × ℤ × Str)) : List VPNNode → List VPNNode
  | [] => []
  | n :: ns =>
      if dedupKey n ∈ seen then dedupGo seen ns
      else n :: dedupGo (dedupKey n :: seen) ns

/-- `NodeFilter._dedup`. -/
def dedup (nodes : List VPNNode) : List VPNNode := dedupGo [] nodes

/-- Reasons a node can be dropped by `NodeFilter._apply_filters`,
in the order the source tests them. -/
inductive RejectReason where
  | excludedCountry
  | notWhitelisted
  | notEu
  | asnBlacklisted
  | notAlive
  | pingLow
  | pingHigh
  deriving DecidableEq, Repr

/-- `v in <set of country strings>` (Python set membership: only a string
value can be a member of a set of strings). -/
def valInStrs (v : PyVal) (l : List Str) : Bool :=
  match v with
  | .str s => l.contains s
  | _ => false

/-- `v in <set of ints>` (Python `bool` is an `int` subtype: `True == 1`). -/
def valInInts (v : PyVal) (l : List ℤ) : Bool :=
  match v with
  | .int a => l.contains a
  | .bool b => l.contains (if b then 1 else 0)
  | _ => false

/-- `isinstance(v, (int, float))` together with the numeric value
(Python `bool` counts as `int`; the pipeline only ever stores integral
numerics, so the numeric value is modelled in `ℤ`). -/
def pyNumeric : PyVal → Option ℤ
  | .int n => some n
  | .bool b => some (if b then 1 else 0)
  | _ => Option.none

/-- The rule cascade of `NodeFilter._apply_filters` as a function of the
four looked-up attribute values, in source order: exclude-countries,
whitelist, eu-only, ASN blacklist, `alive is False`, ping bounds.  Returns
the first matching rejection (`continue`), `none` when the node is kept. -/
def decisionCore (cfg : FilterConfig) (country asn ping alive : Option PyVal) :
    Option RejectReason :=
  if (match country with
      | some v => v.truthy && valInStrs v cfg.exclude_countries
      | Option.none => false) then some .excludedCountry
  else if (!cfg.whitelist_countries.isEmpty &&
      (match country with
       | some v => v.truthy && !(valInStrs v cfg.whitelist_countries)
       | Option.none => false)) then some .notWhitelisted
  else if (cfg.eu_only &&
      (match country with
       | some v => v.truthy && !(valInStrs v euCountries)
       | Option.none => false)) then some .notEu
  else if (match asn with
      | some v => v.truthy && valInInts v cfg.asn_blacklist
      | Option.none => false) then some .asnBlacklisted
  else if alive = some (.bool false) then some .notAlive
  else match ping with
    | some v =>
        (match pyNumeric v with
         | some p =>
             if (match cfg.min_ping_ms with
                 | some m => decide (p < m)
                 | Option.none => false) then some .pingLow
             else if (match cfg.max_ping_ms with
                 | some m => decide (m < p)
                 | Option.none => false) then some .pingHigh
             else Option.none
         | Option.none => Option.none)
    | Option.none => Option.none

/-- The per-node body of `NodeFilter._apply_filters`: the cascade applied
to the node's `country`, `asn`, `ping` and `alive` bag values. -/
def nodeDecision (cfg : FilterConfig) (n : VPNNode) : Option RejectReason :=
  decisionCore cfg (Bag.get n.extra "country".toList)
    (Bag.get n.extra "asn".toList) (Bag.get n.extra "ping".toList)
    (Bag.get n.extra "alive".toList)

/-- `NodeFilter._apply_filters`. -/
def applyFilters (cfg : FilterConfig) (nodes : List VPNNode) : List VPNNode :=
  nodes.filter (fun n => (nodeDecision cfg n).isNone)

/-- `filters.FilterStats` (the dict returned by `to_dict`). -/
structure FilterStats where
  before : ℕ
  dropped_dup : ℕ
  dropped_filter : ℕ
  after : ℕ
  deriving DecidableEq, Repr

/-- `NodeFilter.apply`: dedup stage, then the policy stage, with counters. -/
def filterApply (cfg : FilterConfig) (nodes : List VPNNode) :
    List VPNNode × FilterStats :=
  let deduped := dedup nodes
  let filtered := applyFilters cfg deduped
  (filtered,
   { before := nodes.length
     dropped_dup := nodes.length - deduped.length
     dropped_filter := deduped.length - filtered.length
     after := filtered.length })

end Vpn

namespace Vpn

/-- Keep-first-occurrence semantics, stated without the scan's `seen`
accumulator: keep the head and recurse on the tail purged of every node
sharing the head's dedup key. -/
def dedupSpec : List VPNNode → List VPNNode
  | [] => []
  | n :: ns =>
      n :: dedupSpec (ns.filter (fun m => !decide (dedupKey m = dedupKey n)))
termination_by l => l.length
decreasing_by
  simp only [List.length_cons]
  exact Nat.lt_succ_of_le (List.length_filter_le _ _)

theorem dedupGo_eq_spec (l : List VPNNode) : ∀ seen,
    dedupGo seen l = dedupSpec (l.filter (fun n => !decide (dedupKey n ∈ seen))) := by
  induction l with
  | nil => intro seen; simp [dedupGo, dedupSpec]
  | cons n ns ih =>
      intro seen
      by_cases h : dedupKey n ∈ seen
      · rw [dedupGo, if_pos h, List.filter_cons, ih seen]
        simp [h]
      · rw [dedupGo, if_neg h, List.filter_cons, ih (dedupKey n :: seen)]
        have hd : (!decide (dedupKey n ∈ seen)) = true := by simp [h]
        rw [hd]
        simp only [if_true, dedupSpec, List.filter_filter]
        congr 2
        apply List.filter_congr
        intro m _
        by_cases h1 : dedupKey m = dedupKey n <;>
          by_cases h2 : dedupKey m ∈ seen <;>
          simp [h1, h2, List.mem_cons]

end Vpn

namespace Vpn

/-- Modelled from the spec: the per-protocol credential of the data model
("either an identity token or a secret+method pair — exactly one populated
per protocol"): the identity token for `vless`/`vmess`, the secret+method
pair for `ss` (secret from `password`, method from the bag's `method`). -/
inductive SpecCred where
  | token (t : Str)
  | pair (method secret : Str)
  deriving DecidableEq, Repr

/-- Modelled from the spec: the `(protocol, host, port, credential)`
deduplication identity of the data model. -/
def specDedupKey (n : VPNNode) : Str × Str × ℤ × SpecCred :=
  (n.protocol, n.host, n.port,
   if n.protocol = "ss".toList then
     .pair (match Bag.get n.extra "method".toList with
            | some (.str m) => m
            | _ => []) (n.password.getD [])
   else .token (n.uuid.getD []))

/-- First of the two `ss` nodes that differ only in their bag `method`. -/
def ssNodeA : VPNNode :=
  { protocol := "ss".toList, host := "h".toList, port := 1,
    password := some "p".toList,
    extra := [("method".toList, .str "aes-256-gcm".toList)] }

/-- Second `ss` node: same host, port and password, different method. -/
def ssNodeB : VPNNode :=
  { protocol := "ss".toList, host := "h".toList, port := 1,
    password := some "p".toList,
    extra := [("method".toList, .str "chacha20-ietf-poly1305".toList)] }

/-- C3 counterexample: the dedup stage drops `ssNodeB` even though its
spec-side `(protocol, host, port, credential)` identity differs from
`ssNodeA`'s — the code's key ignores the `ss` method, so two nodes that the
claim calls distinct are collapsed. -/
theorem dedup_drops_distinct_ss_method :
    dedup [ssNodeA, ssNodeB] = [ssNodeA] ∧ specDedupKey ssNodeA ≠ specDedupKey ssNodeB := by
  constructor
  · rfl
  · decide

/-- C3 (amended): the dedup stage keeps exactly the first occurrence, in
input order, of each `(protocol, host, port, uuid-or-password)` key — the
credential slot is `n.uuid` if non-empty, else `n.password` if non-empty,
else the empty string, so the `ss` method never enters the key — and
`dropped_dup` is `before` minus the deduplicated count. -/
theorem dedup_first_occurrence_and_stats (cfg : FilterConfig) (l : List VPNNode) :
    dedup l = dedupSpec l ∧
    (filterApply cfg l).2.dropped_dup = l.length - (dedup l).length := by
  refine ⟨?_, rfl⟩
  rw [dedup, dedupGo_eq_spec]
  congr 1
  exact List.filter_eq_self.2 (fun a _ => by simp)

end Vpn

namespace Vpn

theorem decisionCore_country_none (cfg : FilterConfig) (a p l : Option PyVal) :
    decisionCore cfg Option.none a p l ≠ some .excludedCountry ∧
    decisionCore cfg Option.none a p l ≠ some .notWhitelisted ∧
    decisionCore cfg Option.none a p l ≠ some .notEu := by
  unfold decisionCore
  repeat' split <;> try (first | decide | simp_all)

theorem decisionCore_asn_none (cfg : FilterConfig) (c p l : Option PyVal) :
    decisionCore cfg c Option.none p l ≠ some .asnBlacklisted := by
  unfold decisionCore
  repeat' split <;> try (first | decide | simp_all)

theorem decisionCore_ping_none (cfg : FilterConfig) (c a l : Option PyVal) :
    decisionCore cfg c a Option.none l ≠ some .pingLow ∧
    decisionCore cfg c a Option.none l ≠ some .pingHigh := by
  unfold decisionCore
  repeat' split <;> try (first | decide | simp_all)

theorem decisionCore_alive_false (cfg : FilterConfig) (c a p : Option PyVal) :
    (decisionCore cfg c a p (some (.bool false))).isSome := by
  unfold decisionCore
  repeat' split <;> try (first | decide | simp_all)

theorem decisionCore_all_absent (cfg : FilterConfig) (l : Option PyVal)
    (hl : l ≠ some (.bool false)) :
    decisionCore cfg Option.none Option.none Option.none l = Option.none := by
  unfold decisionCore
  repeat' split <;> try (first | decide | simp_all)

/-- C6: policy pass-through.  A node whose bag lacks `country` is not
rejected by the exclude-country, whitelist or EU-only rule; one lacking
`asn` is not rejected by the ASN blacklist; one lacking `ping` is not
rejected by the ping bounds; `alive` explicitly `False` rejects the node;
and a node lacking all three attributes whose `alive` is not `False` is
kept.  The rule order (exclude-country, whitelist, euOnly, ASN blacklist,
alive, ping bounds, first match wins) is the cascade of `nodeDecision`. -/
theorem policy_passthrough (cfg : FilterConfig) (n : VPNNode) :
    (Bag.get n.extra "country".toList = Option.none →
       nodeDecision cfg n ≠ some .excludedCountry ∧
       nodeDecision cfg n ≠ some .notWhitelisted ∧
       nodeDecision cfg n ≠ some .notEu) ∧
    (Bag.get n.extra "asn".toList = Option.none →
       nodeDecision cfg n ≠ some .asnBlacklisted) ∧
    (Bag.get n.extra "ping".toList = Option.none →
       nodeDecision cfg n ≠ some .pingLow ∧ nodeDecision cfg n ≠ some .pingHigh) ∧
    (Bag.get n.extra "alive".toList = some (.bool false) →
       (nodeDecision cfg n).isSome) ∧
    (Bag.get n.extra "country".toList = Option.none →
     Bag.get n.extra "asn".toList = Option.none →
     Bag.get n.extra "ping".toList = Option.none →
     Bag.get n.extra "alive".toList ≠ some (.bool false) →
     nodeDecision cfg n = Option.none) := by
  refine ⟨?_, ?_, ?_, ?_, ?_⟩
  · intro hc
    rw [nodeDecision, hc]
    exact decisionCore_country_none cfg _ _ _
  · intro ha
    rw [nodeDecision, ha]
    exact decisionCore_asn_none cfg _ _ _
  · intro hp
    rw [nodeDecision, hp]
    exact decisionCore_ping_none cfg _ _ _
  · intro hl
    rw [nodeDecision, hl]
    exact decisionCore_alive_false cfg _ _ _
  · intro hc ha hp hl
    rw [nodeDecision, hc, ha, hp]
    exact decisionCore_all_absent cfg _ hl

end Vpn

namespace Vpn

/-- Concrete filter configuration for the C6 witness. -/
def c6cfg : FilterConfig :=
  { eu_only := true, exclude_countries := ["RU".toList],
    whitelist_countries := ["DE".toList], asn_blacklist := [666],
    min_ping_ms := some 10, max_ping_ms := some 500 }

/-- Concrete node with an empty attribute bag for the C6 witness. -/
def c6node : VPNNode :=
  { protocol := "vless".toList, host := "h".toList, port := 443,
    uuid := some "u".toList }

theorem policy_passthrough_witness :
    nodeDecision c6cfg c6node = Option.none :=
  (policy_passthrough c6cfg c6node).2.2.2.2 rfl rfl rfl (by decide)

end Vpn

namespace Vpn

/-! ## Profiler (`scripts/profiler.py`) -/

/-- The low-trust country set of `Profiler.__init__`. -/
def badCountries : List Str := ["RU", "BY", "IR", "CN"].map String.toList

/-- Distinct elements in first-occurrence order (the key order of a Python
`set`-free `Counter`/`dict` built by insertion). -/
def distinctGo {α : Type} [DecidableEq α] (seen : List α) : List α → List α
  | [] => []
  | x :: xs =>
      if x ∈ seen then distinctGo seen xs else x :: distinctGo (x :: seen) xs

/-- Distinct elements of a list, first occurrence first. -/
def distinctList {α : Type} [DecidableEq α] (l : List α) : List α :=
  distinctGo [] l

/-- `collections.Counter(l)`: keys in first-appearance order with counts. -/
def counter (l : List PyVal) : List (PyVal × ℕ) :=
  (distinctList l).map (fun k => (k, l.count k))

/-- `stats.get(k, 0)` on a counter. -/
def countLookup (stats : List (PyVal × ℕ)) (k : PyVal) : ℕ :=
  match stats.find? (fun kv => kv.1 = k) with
  | some kv => kv.2
  | Option.none => 0

/-- `int(x)` on an exact rational: truncation toward zero. -/
def pyIntOfRat (q : ℚ) : ℤ := if 0 ≤ q then ⌊q⌋ else ⌈q⌉

/-- Stable insertion of an integer into a sorted list. -/
def insertSorted (x : ℤ) : List ℤ → List ℤ
  | [] => [x]
  | y :: ys => if x ≤ y then x :: y :: ys else y :: insertSorted x ys

/-- `sorted(l)` for integers. -/
def sortInts (l : List ℤ) : List ℤ := l.foldr insertSorted []

/-- `int(statistics.median(pings))`: middle element for odd length, the
truncated mean of the two middle elements for even length. -/
def medianPing (pings : List ℤ) : Option ℤ :=
  if pings.isEmpty then Option.none
  else
    let s := sortInts pings
    let n := s.length
    if n % 2 = 1 then some (s.getD (n / 2) 0)
    else some (pyIntOfRat (((s.getD (n / 2 - 1) 0 + s.getD (n / 2) 0 : ℤ) : ℚ) / 2))

/-- `a or b` on an optional Python value (falsy or missing selects `b`). -/
def pyOrVal (a : Option PyVal) (b : PyVal) : PyVal :=
  match a with
  | some v => if v.truthy then v else b
  | Option.none => b

/-- The `last_seen_iso or last_seen or now_iso` chain of the last-seen
tracking loop. -/
def isoOf (n : VPNNode) (now : Str) : PyVal :=
  pyOrVal (Bag.get n.extra "last_seen_iso".toList)
    (pyOrVal (Bag.get n.extra "last_seen".toList) (.str now))

/-- The last-seen tracking loop of `_build_single_profile`: the running
maximum of the numeric `last_seen_ts` values with the matching iso string. -/
def lastSeenStep (now : Str) (acc : Option ℤ × Option PyVal) (n : VPNNode) :
    Option ℤ × Option PyVal :=
  match (Bag.get n.extra "last_seen_ts".toList).bind pyNumeric with
  | some t =>
      (match acc.1 with
       | some t0 => if t0 < t then (some t, some (isoOf n now)) else acc
       | Option.none => (some t, some (isoOf n now)))
  | Option.none => acc

/-- The profile's `last_seen` value (`last_seen_iso or now_iso`). -/
def lastSeenOf (nodes : List VPNNode) (now : Str) : PyVal :=
  match (nodes.foldl (lastSeenStep now) (Option.none, Option.none)).2 with
  | some v => if v.truthy then v else .str now
  | Option.none => .str now

/-- The tag list of `Profiler._compute_score_and_tags`: the two `append`
branches in source order.  `alive_ratio_val` is `alive_ratio` with `None`
mapped to `0.0`. -/
def computeTags (min_nodes : ℕ) (eu_share bad_share : ℚ)
    (alive_ratio : Option ℚ) (total_nodes : ℕ) : List Str :=
  let arv : ℚ := alive_ratio.getD 0
  (if eu_share ≥ 0.7 ∧ bad_share ≤ 0.1 ∧ arv ≥ 0.5 ∧ total_nodes ≥ min_nodes
   then ["whitelist_candidate".toList] else []) ++
  (if bad_share ≥ 0.5 ∨ arv ≤ 0.1
   then ["blacklist_candidate".toList] else [])

/-- `Profiler._classify_source_type`. -/
def classifySourceType (total_nodes : ℕ) (unique_ips : ℕ)
    (asn_stats : List (PyVal × ℕ)) : Str :=
  if total_nodes < 10 then "unknown".toList
  else
    let ip_diversity : ℚ :=
      if 0 < total_nodes then (unique_ips : ℚ) / total_nodes else 0
    let asn_concentration : ℚ :=
      if asn_stats.isEmpty then 0
      else ((asn_stats.map Prod.snd).foldl max 0 : ℚ) / total_nodes
    let asn_diversity : ℕ := if asn_stats.isEmpty then 0 else asn_stats.length
    if asn_concentration ≥ 0.7 ∧ ip_diversity ≤ 0.4 then "first_party".toList
    else if asn_diversity ≥ 15 ∧ ip_diversity ≥ 0.75 then "aggregator".toList
    else "unknown".toList

/-- One emitted group profile (`_build_single_profile`'s dict).  The
`score` entry, a real number, is given by the separate `computeScore`
applied to the profile's share/ratio/count fields. -/
structure Profile where
  id : PyVal
  total_nodes : ℕ
  unique_ips : ℕ
  asn_stats : List (PyVal × ℕ)
  country_stats : List (PyVal × ℕ)
  eu_share : ℚ
  bad_country_share : ℚ
  avg_ping : Option ℤ
  median_ping : Option ℤ
  alive_ratio : Option ℚ
  last_seen : PyVal
  tags : List Str
  source_type : Str
  deriving DecidableEq, Repr

/-- `Profiler._build_single_profile` (shares in exact rationals). -/
def buildSingleProfile (min_nodes : ℕ) (entity_id : PyVal)
    (nodes : List VPNNode) (now_iso : Str) : Profile :=
  let ips := nodes.filterMap (fun n =>
    (Bag.get n.extra "ip".toList).bind
      (fun v => if v.truthy then some v else Option.none))
  let countries := nodes.filterMap (fun n =>
    (Bag.get n.extra "country".toList).bind
      (fun v => if v.truthy then some v else Option.none))
  let asns := nodes.filterMap (fun n =>
    (Bag.get n.extra "asn".toList).bind
      (fun v => if v = PyVal.none then Option.none else some v))
  let pings := nodes.filterMap (fun n =>
    (Bag.get n.extra "ping".toList).bind pyNumeric)
  let alive_flags := nodes.filterMap (fun n =>
    match Bag.get n.extra "alive".toList with
    | some (.bool b) => some b
    | _ => Option.none)
  let total_nodes := nodes.length
  let unique_ips := if ips.isEmpty then 0 else (distinctList ips).length
  let asn_stats := counter asns
  let country_stats := counter countries
  let total_with_country :=
    let s := (country_stats.map Prod.snd).sum
    if s = 0 then 1 else s
  let eu_count := (euCountries.map (fun c => countLookup country_stats (.str c))).sum
  let eu_share : ℚ := (eu_count : ℚ) / total_with_country
  let bad_count := (badCountries.map (fun c => countLookup country_stats (.str c))).sum
  let bad_country_share : ℚ := (bad_count : ℚ) / total_with_country
  let avg_ping := if pings.isEmpty then Option.none
    else some (pyIntOfRat ((pings.map (fun p => (p : ℚ))).sum / pings.length))
  let median_ping := medianPing pings
  let alive_ratio := if alive_flags.isEmpty then Option.none
    else some ((alive_flags.count true : ℚ) / alive_flags.length)
  let tags := computeTags min_nodes eu_share bad_country_share alive_ratio total_nodes
  let source_type := classifySourceType total_nodes unique_ips asn_stats
  let tags := tags ++
    (if source_type = "first_party".toList then ["first_party_like".toList]
     else if source_type = "aggregator".toList then ["aggregator_like".toList]
     else [])
  { id := entity_id, total_nodes := total_nodes, unique_ips := unique_ips,
    asn_stats := asn_stats, country_stats := country_stats,
    eu_share := eu_share, bad_country_share := bad_country_share,
    avg_ping := avg_ping, median_ping := median_ping,
    alive_ratio := alive_ratio, last_seen := lastSeenOf nodes now_iso,
    tags := tags, source_type := source_type }

end Vpn

namespace Vpn

/-- `round(x, 3)` over exact reals.  (The Lean `round` rounds half away
from the nearest even; the rounding function is applied identically on the
code side and the spec side, so the tie-breaking convention cancels.) -/
noncomputable def round3 (x : ℝ) : ℝ := ((round (x * 1000) : ℤ) : ℝ) / 1000

/-- The score accumulation of `Profiler._compute_score_and_tags`:
`base = 0; base += 2.0·eu; base -= 3.0·bad; base += 1.5·alive_ratio_val;
base += 0.2·log1p(total); round(base, 3)`. -/
noncomputable def computeScore (eu_share bad_share : ℚ)
    (alive_ratio : Option ℚ) (total_nodes : ℕ) : ℝ :=
  let arv : ℚ := alive_ratio.getD 0
  let base : ℝ := 0
  let base := base + 2.0 * (eu_share : ℝ)
  let base := base - 3.0 * (bad_share : ℝ)
  let base := base + 1.5 * (arv : ℝ)
  let base := base + 0.2 * Real.log (1 + (total_nodes : ℝ))
  round3 base

/-- Modelled from the spec: `score = round(2.0·euShare − 3.0·badCountryShare
+ 1.5·(aliveRatio or 0) + 0.2·ln(1+totalNodes), 3)`. -/
noncomputable def specScore (eu_share bad_share : ℚ)
    (alive_ratio : Option ℚ) (total_nodes : ℕ) : ℝ :=
  round3 (2.0 * (eu_share : ℝ) - 3.0 * (bad_share : ℝ) +
    1.5 * ((alive_ratio.getD 0 : ℚ) : ℝ) + 0.2 * Real.log (1 + (total_nodes : ℝ)))

/-- `group_key_fn(n) or "unknown"` of `_build_grouped_profiles`. -/
def groupKeyOf (fn : VPNNode → PyVal) (n : VPNNode) : PyVal :=
  let k := fn n
  if k.truthy then k else .str "unknown".toList

/-- The source grouping key: `n.extra.get("source_name", "unknown")`. -/
def sourceKeyFn (n : VPNNode) : PyVal :=
  match Bag.get n.extra "source_name".toList with
  | some v => v
  | Option.none => .str "unknown".toList

/-- The provider grouping key:
`extra.get("provider_id") or extra.get("source_name", "unknown")`. -/
def providerKeyFn (n : VPNNode) : PyVal :=
  match Bag.get n.extra "provider_id".toList with
  | some v => if v.truthy then v else sourceKeyFn n
  | Option.none => sourceKeyFn n

/-- `Profiler._build_grouped_profiles` (minus the file writes): one profile
per distinct group key, in first-appearance order.  The
`if len(lst) < self.min_nodes: pass` branch of the source has no effect
and is modelled by nothing. -/
def buildGroupedProfiles (min_nodes : ℕ) (fn : VPNNode → PyVal)
    (nodes : List VPNNode) (now_iso : Str) : List (PyVal × Profile) :=
  (distinctList (nodes.map (groupKeyOf fn))).map
    (fun k => (k, buildSingleProfile min_nodes k
      (nodes.filter (fun n => groupKeyOf fn n = k)) now_iso))

/-- `Profiler.build_profiles`: the `by_source` and `by_provider` maps. -/
def buildProfiles (min_nodes : ℕ) (nodes : List VPNNode) (now_iso : Str) :
    List (PyVal × Profile) × List (PyVal × Profile) :=
  (buildGroupedProfiles min_nodes sourceKeyFn nodes now_iso,
   buildGroupedProfiles min_nodes providerKeyFn nodes now_iso)

end Vpn

namespace Vpn

/-- C5: the profile score equals the spec's closed formula
`round(2.0·euShare − 3.0·badCountryShare + 1.5·(aliveRatio or 0)
+ 0.2·ln(1+totalNodes), 3)`, computed from the group profile's own
`eu_share`, `bad_country_share`, `alive_ratio` and node count. -/
theorem score_matches_spec_formula (min_nodes : ℕ) (entity_id : PyVal)
    (nodes : List VPNNode) (now_iso : Str) :
    computeScore (buildSingleProfile min_nodes entity_id nodes now_iso).eu_share
      (buildSingleProfile min_nodes entity_id nodes now_iso).bad_country_share
      (buildSingleProfile min_nodes entity_id nodes now_iso).alive_ratio
      (buildSingleProfile min_nodes entity_id nodes now_iso).total_nodes =
    specScore (buildSingleProfile min_nodes entity_id nodes now_iso).eu_share
      (buildSingleProfile min_nodes entity_id nodes now_iso).bad_country_share
      (buildSingleProfile min_nodes entity_id nodes now_iso).alive_ratio
      (buildSingleProfile min_nodes entity_id nodes now_iso).total_nodes := by
  simp only [computeScore, specScore]
  congr 1
  ring

theorem blacklist_mem_computeTags (m : ℕ) (eu bad : ℚ) (ar : Option ℚ) (t : ℕ) :
    "blacklist_candidate".toList ∈ computeTags m eu bad ar t ↔
      (bad ≥ 0.5 ∨ ar.getD 0 ≤ 0.1) := by
  simp only [computeTags]
  split <;> split <;>
    simp_all [List.mem_append, show "blacklist_candidate".toList ≠
      "whitelist_candidate".toList by decide]

theorem whitelist_mem_computeTags (m : ℕ) (eu bad : ℚ) (ar : Option ℚ) (t : ℕ) :
    "whitelist_candidate".toList ∈ computeTags m eu bad ar t → m ≤ t := by
  simp only [computeTags]
  split <;> split <;>
    simp_all [List.mem_append, show "whitelist_candidate".toList ≠
      "blacklist_candidate".toList by decide]

theorem tag_mem_likes_iff (st : Str) (tag : Str)
    (h1 : tag ≠ "first_party_like".toList) (h2 : tag ≠ "aggregator_like".toList) :
    tag ∉ (if st = "first_party".toList then ["first_party_like".toList]
      else if st = "aggregator".toList then ["aggregator_like".toList]
      else ([] : List Str)) := by
  split <;> simp_all

end Vpn

namespace Vpn

/-- Modelled from the spec: `blacklist_candidate` iff `badCountryShare ≥ 0.5`
OR (`aliveRatio` is known AND `aliveRatio ≤ 0.1`). -/
def specBlacklistCond (bad : ℚ) (ar : Option ℚ) : Prop :=
  bad ≥ 0.5 ∨ (ar ≠ Option.none ∧ ar.getD 0 ≤ 0.1)

/-- C4 (amended): `blacklist_candidate` is present iff
`badCountryShare ≥ 0.5` OR the alive ratio **with `None` mapped to `0`**
is `≤ 0.1` — a group with no aliveness information is treated as ratio `0`
and therefore tagged. -/
theorem blacklist_tag_iff (m : ℕ) (gid : PyVal) (nodes : List VPNNode)
    (now : Str) :
    ("blacklist_candidate".toList ∈ (buildSingleProfile m gid nodes now).tags ↔
      ((buildSingleProfile m gid nodes now).bad_country_share ≥ 0.5 ∨
       (buildSingleProfile m gid nodes now).alive_ratio.getD 0 ≤ 0.1)) := by
  simp only [buildSingleProfile, List.mem_append]
  constructor
  · rintro (h | h)
    · exact (blacklist_mem_computeTags _ _ _ _ _).1 h
    · exact absurd h (tag_mem_likes_iff _ _ (by decide) (by decide))
  · intro h
    exact Or.inl ((blacklist_mem_computeTags _ _ _ _ _).2 h)

/-- A node carrying only a country attribute, for the C4 counterexample. -/
def c4node : VPNNode :=
  { protocol := "vless".toList, host := "h".toList, port := 443,
    uuid := some "u".toList,
    extra := [("country".toList, .str "DE".toList)] }

/-- C4 counterexample: a one-node group with `country = DE`, no aliveness
information and `badCountryShare = 0` is nevertheless tagged
`blacklist_candidate` (the code maps an unknown alive ratio to `0.0`,
which passes the `≤ 0.1` test), contradicting the claimed iff. -/
theorem blacklist_tag_without_aliveness :
    "blacklist_candidate".toList ∈
      (buildSingleProfile 5 (.str "src".toList) [c4node] "t".toList).tags ∧
    ¬ specBlacklistCond
      (buildSingleProfile 5 (.str "src".toList) [c4node] "t".toList).bad_country_share
      (buildSingleProfile 5 (.str "src".toList) [c4node] "t".toList).alive_ratio := by
  constructor
  · simp [buildSingleProfile, c4node, Bag.get, counter, distinctList,
      distinctGo, countLookup, computeTags, classifySourceType, medianPing,
      sortInts, PyVal.truthy, euCountries, badCountries]
    norm_num
  · simp [specBlacklistCond, buildSingleProfile, c4node, Bag.get, counter,
      distinctList, distinctGo, countLookup, PyVal.truthy, euCountries,
      badCountries]
    norm_num

end Vpn

namespace Vpn

/-- C7: groups below 10 nodes are always `unknown`; at 10 or more,
`first_party` iff `asnConcentration ≥ 0.7 ∧ ipDiversity ≤ 0.4` (with
`asnConcentration` the maximal histogram count over `totalNodes`, `0` for
an empty histogram, and `ipDiversity = uniqueIPs/totalNodes`), `aggregator`
iff the first condition fails, the number of distinct ASNs is `≥ 15` and
`ipDiversity ≥ 0.75`; and nothing but these three labels occurs. -/
theorem source_type_classification (total unique : ℕ) (stats : List (PyVal × ℕ)) :
    (total < 10 → classifySourceType total unique stats = "unknown".toList) ∧
    (10 ≤ total →
      ((classifySourceType total unique stats = "first_party".toList ↔
          ((if stats.isEmpty then (0 : ℚ)
            else ((stats.map Prod.snd).foldl max 0 : ℚ) / total) ≥ 0.7 ∧
           (unique : ℚ) / total ≤ 0.4)) ∧
       (classifySourceType total unique stats = "aggregator".toList ↔
          (¬((if stats.isEmpty then (0 : ℚ)
              else ((stats.map Prod.snd).foldl max 0 : ℚ) / total) ≥ 0.7 ∧
             (unique : ℚ) / total ≤ 0.4) ∧
           15 ≤ stats.length ∧ (unique : ℚ) / total ≥ 0.75)) ∧
       (classifySourceType total unique stats = "first_party".toList ∨
        classifySourceType total unique stats = "aggregator".toList ∨
        classifySourceType total unique stats = "unknown".toList))) := by
  have hfp_u : "first_party".toList ≠ "unknown".toList := by decide
  have hag_u : "aggregator".toList ≠ "unknown".toList := by decide
  have hfp_ag : "first_party".toList ≠ "aggregator".toList := by decide
  constructor
  · intro h
    simp [classifySourceType, h]
  · intro h
    have h10 : ¬ total < 10 := by omega
    have hpos : 0 < total := by omega
    by_cases he : stats.isEmpty <;>
      simp only [classifySourceType, if_neg h10, if_pos hpos, he, if_true,
        if_false] <;>
      refine ⟨?_, ?_, ?_⟩ <;>
      repeat' split <;> simp_all <;> try omega

end Vpn

namespace Vpn

theorem source_type_classification_witness :
    classifySourceType 9 3 [] = "unknown".toList :=
  (source_type_classification 9 3 []).1 (by decide)

theorem map_fst_pair {α β : Type} (f : α → β) (l : List α) :
    (l.map (fun k => (k, f k))).map Prod.fst = l := by
  induction l with
  | nil => rfl
  | cons x xs ih => simp [ih]

theorem whitelist_tag_needs_min (m : ℕ) (gid : PyVal) (lst : List VPNNode)
    (now : Str) :
    "whitelist_candidate".toList ∈ (buildSingleProfile m gid lst now).tags →
    m ≤ (buildSingleProfile m gid lst now).total_nodes := by
  simp only [buildSingleProfile, List.mem_append]
  rintro (h | h)
  · exact whitelist_mem_computeTags _ _ _ _ _ h
  · exact absurd h (tag_mem_likes_iff _ _ (by decide) (by decide))

/-- C10: each of the two groupings emits exactly one profile per distinct
group key (in first-appearance order), the fallback key is `"unknown"` when
the grouping attribute is absent or empty, the `min_nodes` threshold never
changes which groups are emitted — it only gates the `whitelist_candidate`
tag — and so even a single-node group receives a full profile. -/
theorem one_profile_per_group_key (m : ℕ) (nodes : List VPNNode) (now : Str) :
    ((buildProfiles m nodes now).1.map Prod.fst
       = distinctList (nodes.map (groupKeyOf sourceKeyFn))) ∧
    ((buildProfiles m nodes now).2.map Prod.fst
       = distinctList (nodes.map (groupKeyOf providerKeyFn))) ∧
    (∀ n : VPNNode, Bag.get n.extra "source_name".toList = Option.none →
       groupKeyOf sourceKeyFn n = .str "unknown".toList) ∧
    (∀ n : VPNNode, Bag.get n.extra "source_name".toList = some (.str []) →
       groupKeyOf sourceKeyFn n = .str "unknown".toList) ∧
    (∀ m2 : ℕ, (buildProfiles m2 nodes now).1.map Prod.fst
       = (buildProfiles m nodes now).1.map Prod.fst) ∧
    (∀ kp, kp ∈ (buildProfiles m nodes now).1 →
       "whitelist_candidate".toList ∈ kp.2.tags → m ≤ kp.2.total_nodes) := by
  refine ⟨?_, ?_, ?_, ?_, ?_, ?_⟩
  · simp only [buildProfiles, buildGroupedProfiles]
    exact map_fst_pair _ _
  · simp only [buildProfiles, buildGroupedProfiles]
    exact map_fst_pair _ _
  · intro n h
    unfold groupKeyOf sourceKeyFn
    rw [h]
    decide
  · intro n h
    unfold groupKeyOf sourceKeyFn
    rw [h]
    decide
  · intro m2
    simp only [buildProfiles, buildGroupedProfiles]
    rw [map_fst_pair, map_fst_pair]
  · intro kp hkp hw
    obtain ⟨k, hk, rfl⟩ := List.mem_map.1 hkp
    exact whitelist_tag_needs_min m k _ now hw

theorem one_profile_per_group_key_witness :
    groupKeyOf sourceKeyFn c6node = .str "unknown".toList :=
  (one_profile_per_group_key 5 [] "t".toList).2.2.1 c6node rfl

end Vpn

namespace Vpn

/-! ## Enricher (`scripts/enricher.py`) -/

theorem bagFind_set (b : Bag) (k k2 : Str) (v : PyVal) (h : k2 ≠ k) :
    (b.map (fun kv => if kv.1 = k then (kv.1, v) else kv)).find?
        (fun kv => kv.1 = k2) =
      b.find? (fun kv => kv.1 = k2) := by
  have hkk2 : ¬ (k = k2) := fun e => h e.symm
  induction b with
  | nil => rfl
  | cons kv bs ih =>
      by_cases hk : kv.1 = k
      · have hne : ¬ (kv.1 = k2) := by
          rw [hk]
          exact hkk2
        simp [List.find?_cons, hk, hne, ih, hkk2, h]
      · by_cases hk2 : kv.1 = k2 <;>
          simp [List.find?_cons, hk, hk2, ih, hkk2, h]

theorem bag_get_set_ne (b : Bag) (k k2 : Str) (v : PyVal) (h : k2 ≠ k) :
    Bag.get (Bag.set b k v) k2 = Bag.get b k2 := by
  unfold Bag.get Bag.set
  split
  · rw [bagFind_set b k k2 v h]
  · rw [List.find?_append]
    have hx : ¬ (k = k2) := fun e => h e.symm
    have : ([(k, v)].find? (fun kv => kv.1 = k2)) = Option.none := by
      simp [List.find?_cons, hx]
    rw [this]
    cases b.find? (fun kv => kv.1 = k2) <;> rfl

theorem bag_setdefault_of_present (b : Bag) (k : Str) (v : PyVal)
    (h : (Bag.get b k).isSome) : Bag.setdefault b k v = b := by
  unfold Bag.setdefault
  unfold Bag.get at h
  rw [if_pos (by simpa using h)]

theorem bag_get_setdefault_ne (b : Bag) (k k2 : Str) (v : PyVal) (h : k2 ≠ k) :
    Bag.get (Bag.setdefault b k v) k2 = Bag.get b k2 := by
  unfold Bag.setdefault
  split
  · rfl
  · unfold Bag.get
    rw [List.find?_append]
    have hx : ¬ (k = k2) := fun e => h e.symm
    have : ([(k, v)].find? (fun kv => kv.1 = k2)) = Option.none := by
      simp [List.find?_cons, hx]
    rw [this]
    cases b.find? (fun kv => kv.1 = k2) <;> rfl

/-- The enricher's effectful collaborators and switches
(`EnricherConfig` plus the loaded GeoIP readers as oracles).
`resolve` is `_resolve_ip` (`none` = the except branch); a country/ASN
reader is `none` when its database failed to load; a loaded reader's
lookup returns `none` for the `except Exception` branch and `some r` for
a successful lookup (`r` carrying the possibly-`None` iso code /
organisation name); `ping` is `_tcp_ping` (`none` = failure, `some ms`
the elapsed milliseconds already truncated by `int(...)`). -/
structure EnrichEnv where
  enable_dns : Bool := true
  enable_geoip : Bool := true
  enable_alive : Bool := false
  max_nodes_per_run : ℕ := 0
  resolve : Str → Option Str
  geo_country : Option (Str → Option (Option Str))
  geo_asn : Option (Str → Option (ℤ × Option Str))
  ping : PyVal → ℤ → Option ℤ

/-- The DNS block of `_enrich_node`: when enabled and `ip` is absent,
resolve the host and store a truthy result under `ip`. -/
def dnsStep (env : EnrichEnv) (host : Str) (extra : Bag) : Bag :=
  if env.enable_dns && !(Bag.get extra "ip".toList).isSome then
    match env.resolve host with
    | some ip => if ip.isEmpty then extra else Bag.set extra "ip".toList (.str ip)
    | Option.none => extra
  else extra

/-- The country half of the GeoIP block of `_enrich_node`: a successful
lookup overwrites `country`; a failed one writes the sentinel `"XX"`
set-if-absent.  A non-string `ip` value makes the reader call raise,
i.e. take the failure branch. -/
def geoCountryBlock (env : EnrichEnv) (ipv : PyVal) (extra : Bag) : Bag :=
  match env.geo_country with
  | some reader =>
      (match (match ipv with | .str s => reader s | _ => Option.none) with
       | some iso =>
           Bag.set extra "country".toList
             (match iso with | some c => .str c | Option.none => PyVal.none)
       | Option.none => Bag.setdefault extra "country".toList (.str "XX".toList))
  | Option.none => extra

/-- The ASN half of the GeoIP block. -/
def geoAsnBlock (env : EnrichEnv) (ipv : PyVal) (extra : Bag) : Bag :=
  match env.geo_asn with
  | some reader =>
      (match (match ipv with | .str s => reader s | _ => Option.none) with
       | some r =>
           Bag.set (Bag.set extra "asn".toList (.int r.1)) "asn_name".toList
             (match r.2 with | some s => .str s | Option.none => PyVal.none)
       | Option.none => Bag.setdefault extra "asn".toList PyVal.none)
  | Option.none => extra

/-- The GeoIP block of `_enrich_node`: country half, then ASN half. -/
def geoStep (env : EnrichEnv) (ipv : PyVal) (extra : Bag) : Bag :=
  if env.enable_geoip then geoAsnBlock env ipv (geoCountryBlock env ipv extra)
  else extra

/-- The liveness block of `_enrich_node`: when enabled, overwrite `alive`
and `ping` according to the TCP probe of `(ip, port)`. -/
def aliveStep (env : EnrichEnv) (ipv : PyVal) (port : ℤ) (extra : Bag) : Bag :=
  if env.enable_alive then
    match env.ping ipv port with
    | some ms =>
        Bag.set (Bag.set extra "alive".toList (.bool true)) "ping".toList (.int ms)
    | Option.none =>
        Bag.set (Bag.set extra "alive".toList (.bool false)) "ping".toList PyVal.none
  else extra

/-- `Enricher._enrich_node`: DNS, then — unless the `ip` value is missing
or falsy (`if not ip: return`) — GeoIP and the liveness probe. -/
def enrichNode (env : EnrichEnv) (n : VPNNode) : VPNNode :=
  match Bag.get (dnsStep env n.host n.extra) "ip".toList with
  | some v =>
      if v.truthy then
        { n with extra :=
            aliveStep env v n.port (geoStep env v (dnsStep env n.host n.extra)) }
      else { n with extra := dnsStep env n.host n.extra }
  | Option.none => { n with extra := dnsStep env n.host n.extra }

/-- `Enricher.enrich_all`: enrich the first `max_nodes_per_run` nodes
(`0` = unbounded) in input order, pass the rest through. -/
def enrichAll (env : EnrichEnv) (nodes : List VPNNode) : List VPNNode :=
  let maxN := if env.max_nodes_per_run = 0 then nodes.length
    else env.max_nodes_per_run
  nodes.enum.map (fun p => if p.1 < maxN then enrichNode env p.2 else p.2)

end Vpn


namespace Vpn

theorem dnsStep_preserves (env : EnrichEnv) (host : Str) (extra : Bag)
    (k : Str) (hk : k ≠ "ip".toList) :
    Bag.get (dnsStep env host extra) k = Bag.get extra k := by
  unfold dnsStep
  repeat' split
  all_goals first
    | rfl
    | rw [bag_get_set_ne _ _ _ _ hk]

theorem dnsStep_ip_present (env : EnrichEnv) (host : Str) (extra : Bag)
    (h : (Bag.get extra "ip".toList).isSome) :
    dnsStep env host extra = extra := by
  unfold dnsStep
  have hb : (!(Bag.get extra "ip".toList).isSome) = false := by
    rw [h]
    rfl
  rw [hb, Bool.and_false]
  simp

theorem geoCountryBlock_preserves (env : EnrichEnv) (ipv : PyVal)
    (extra : Bag) (k : Str) (h1 : k ≠ "country".toList) :
    Bag.get (geoCountryBlock env ipv extra) k = Bag.get extra k := by
  unfold geoCountryBlock
  repeat' split
  all_goals first
    | rfl
    | rw [bag_get_set_ne _ _ _ _ h1]
    | rw [bag_get_setdefault_ne _ _ _ _ h1]

theorem geoAsnBlock_preserves (env : EnrichEnv) (ipv : PyVal)
    (extra : Bag) (k : Str) (h2 : k ≠ "asn".toList)
    (h3 : k ≠ "asn_name".toList) :
    Bag.get (geoAsnBlock env ipv extra) k = Bag.get extra k := by
  unfold geoAsnBlock
  repeat' split
  all_goals first
    | rfl
    | rw [bag_get_set_ne _ _ _ _ h3, bag_get_set_ne _ _ _ _ h2]
    | rw [bag_get_setdefault_ne _ _ _ _ h2]

theorem geoCountryBlock_on_failure (env : EnrichEnv) (ipv : PyVal)
    (extra : Bag)
    (hf : ∀ f, env.geo_country = some f → ∀ s, f s = Option.none)
    (hp : (Bag.get extra "country".toList).isSome) :
    Bag.get (geoCountryBlock env ipv extra) "country".toList
      = Bag.get extra "country".toList := by
  unfold geoCountryBlock
  cases hr : env.geo_country with
  | none => rfl
  | some f =>
      have hnone : (match ipv with
          | PyVal.str s => f s
          | _ => Option.none) = Option.none := by
        cases ipv <;> simp [hf f hr]
      simp only [hnone]
      rw [bag_setdefault_of_present _ _ _ hp]

theorem geoAsnBlock_on_failure (env : EnrichEnv) (ipv : PyVal)
    (extra : Bag)
    (hf : ∀ f, env.geo_asn = some f → ∀ s, f s = Option.none)
    (hp : (Bag.get extra "asn".toList).isSome) :
    Bag.get (geoAsnBlock env ipv extra) "asn".toList
      = Bag.get extra "asn".toList := by
  unfold geoAsnBlock
  cases hr : env.geo_asn with
  | none => rfl
  | some f =>
      have hnone : (match ipv with
          | PyVal.str s => f s
          | _ => Option.none) = Option.none := by
        cases ipv <;> simp [hf f hr]
      simp only [hnone]
      rw [bag_setdefault_of_present _ _ _ hp]

theorem aliveStep_preserves (env : EnrichEnv) (ipv : PyVal) (port : ℤ)
    (extra : Bag) (k : Str) (h1 : k ≠ "alive".toList) (h2 : k ≠ "ping".toList) :
    Bag.get (aliveStep env ipv port extra) k = Bag.get extra k := by
  unfold aliveStep
  repeat' split
  all_goals first
    | rfl
    | rw [bag_get_set_ne _ _ _ _ h2, bag_get_set_ne _ _ _ _ h1]

theorem geoStep_disabled (env : EnrichEnv) (ipv : PyVal) (extra : Bag)
    (h : env.enable_geoip = false) : geoStep env ipv extra = extra := by
  unfold geoStep
  simp [h]

theorem aliveStep_disabled (env : EnrichEnv) (ipv : PyVal) (port : ℤ)
    (extra : Bag) (h : env.enable_alive = false) :
    aliveStep env ipv port extra = extra := by
  unfold aliveStep
  simp [h]

end Vpn

namespace Vpn

/-- C1 (amended): only the DNS-written key `ip` is set-if-absent; a present
`country` (resp. `asn`) survives only when every country (resp. ASN)
lookup fails — the failure branches use `setdefault` — while a successful
lookup overwrites it; and with GeoIP and the liveness probe disabled, the
whole bag except possibly `ip` is untouched. -/
theorem enrich_set_if_absent (env : EnrichEnv) (n : VPNNode) :
    ((Bag.get n.extra "ip".toList).isSome →
       Bag.get (enrichNode env n).extra "ip".toList
         = Bag.get n.extra "ip".toList) ∧
    ((∀ f, env.geo_country = some f → ∀ s, f s = Option.none) →
       (Bag.get n.extra "country".toList).isSome →
       Bag.get (enrichNode env n).extra "country".toList
         = Bag.get n.extra "country".toList) ∧
    ((∀ f, env.geo_asn = some f → ∀ s, f s = Option.none) →
       (Bag.get n.extra "asn".toList).isSome →
       Bag.get (enrichNode env n).extra "asn".toList
         = Bag.get n.extra "asn".toList) ∧
    (env.enable_geoip = false → env.enable_alive = false →
       ∀ k, k ≠ "ip".toList →
       Bag.get (enrichNode env n).extra k = Bag.get n.extra k) := by
  refine ⟨?_, ?_, ?_, ?_⟩
  · intro h
    unfold enrichNode
    rw [dnsStep_ip_present env n.host n.extra h]
    split
    · split
      · rw [aliveStep_preserves _ _ _ _ _ (by decide) (by decide), geoStep]
        split
        · rw [geoAsnBlock_preserves _ _ _ _ (by decide) (by decide),
            geoCountryBlock_preserves _ _ _ _ (by decide)]
        · rfl
      · rfl
    · rfl
  · intro hf hp
    unfold enrichNode
    have hd : Bag.get (dnsStep env n.host n.extra) "country".toList
        = Bag.get n.extra "country".toList :=
      dnsStep_preserves _ _ _ _ (by decide)
    split
    · split
      · rw [aliveStep_preserves _ _ _ _ _ (by decide) (by decide), geoStep]
        split
        · rw [geoAsnBlock_preserves _ _ _ _ (by decide) (by decide),
            geoCountryBlock_on_failure _ _ _ hf (by rw [hd]; exact hp), hd]
        · exact hd
      · exact hd
    · exact hd
  · intro hf hp
    unfold enrichNode
    have hd : Bag.get (dnsStep env n.host n.extra) "asn".toList
        = Bag.get n.extra "asn".toList :=
      dnsStep_preserves _ _ _ _ (by decide)
    split
    · split
      · rw [aliveStep_preserves _ _ _ _ _ (by decide) (by decide), geoStep]
        split
        · rw [geoAsnBlock_on_failure _ _ _ hf
            (by rw [geoCountryBlock_preserves _ _ _ _ (by decide), hd]; exact hp),
            geoCountryBlock_preserves _ _ _ _ (by decide), hd]
        · exact hd
      · exact hd
    · exact hd
  · intro hg ha k hk
    unfold enrichNode
    have hd : Bag.get (dnsStep env n.host n.extra) k = Bag.get n.extra k :=
      dnsStep_preserves _ _ _ _ hk
    split
    · split
      · rw [aliveStep_disabled _ _ _ _ ha, geoStep_disabled _ _ _ hg]
        exact hd
      · exact hd
    · exact hd

/-- Environment for the C1 counterexample: the country lookup succeeds and
returns `FR`. -/
def c1env : EnrichEnv :=
  { resolve := fun _ => Option.none,
    geo_country := some (fun _ => some (some "FR".toList)),
    geo_asn := Option.none,
    ping := fun _ _ => Option.none }

/-- Node for the C1 counterexample: already enriched with `ip` and
`country = DE`. -/
def c1node : VPNNode :=
  { protocol := "vless".toList, host := "h".toList, port := 443,
    uuid := some "u".toList,
    extra := [("ip".toList, .str "1.2.3.4".toList),
              ("country".toList, .str "DE".toList)] }

/-- C1 counterexample: `country` is present (`DE`) before `_enrich_node`
runs and a successful geo lookup overwrites it with `FR` — enrichment is
not set-if-absent for `country`. -/
theorem enrich_overwrites_country :
    Bag.get c1node.extra "country".toList = some (.str "DE".toList) ∧
    Bag.get (enrichNode c1env c1node).extra "country".toList
      = some (.str "FR".toList) := by
  constructor <;> rfl

theorem enrich_set_if_absent_witness :
    Bag.get (enrichNode c1env c1node).extra "ip".toList
      = Bag.get c1node.extra "ip".toList :=
  (enrich_set_if_absent c1env c1node).1 (by decide)

end Vpn

namespace Vpn

/-! ## String primitives for the parser (`scripts/parser.py`) -/

/-- The whitespace set stripped by `str.strip()` (and skipped by `int()`):
CPython's `Py_UNICODE_ISSPACE` table — ASCII 0x09-0x0D, the separators
0x1C-0x1F, the space 0x20, plus NEL (U+0085), NBSP (U+00A0), Ogham space
(U+1680), the U+2000-U+200A spaces, the line/paragraph separators
U+2028/U+2029, narrow NBSP (U+202F), medium mathematical space (U+205F)
and ideographic space (U+3000). -/
def isPySpace (c : Char) : Bool :=
  (9 ≤ c.toNat && c.toNat ≤ 13) || (28 ≤ c.toNat && c.toNat ≤ 31) ||
  c.toNat = 32 || c.toNat = 0x85 || c.toNat = 0xA0 || c.toNat = 0x1680 ||
  (0x2000 ≤ c.toNat && c.toNat ≤ 0x200A) || c.toNat = 0x2028 ||
  c.toNat = 0x2029 || c.toNat = 0x202F || c.toNat = 0x205F ||
  c.toNat = 0x3000

/-- `str.strip()`. -/
def pyStrip (s : Str) : Str :=
  ((s.dropWhile isPySpace).reverse.dropWhile isPySpace).reverse

/-- `p` is a literal prefix of `s` (`str.startswith`). -/
def hasPfx : Str → Str → Bool
  | [], _ => true
  | _ :: _, [] => false
  | p :: ps, c :: cs => p = c && hasPfx ps cs

/-- `s.split(sep, 1)` when `sep` occurs: the parts before and after the
first occurrence. -/
def splitFirst (sep : Char) : Str → Option (Str × Str)
  | [] => Option.none
  | c :: cs =>
      if c = sep then some ([], cs)
      else (splitFirst sep cs).map (fun p => (c :: p.1, p.2))

/-- `s.rsplit(sep, 1)` when `sep` occurs: the parts before and after the
last occurrence. -/
def splitLast (sep : Char) (s : Str) : Option (Str × Str) :=
  (splitFirst sep s.reverse).map (fun p => (p.2.reverse, p.1.reverse))

/-- `s.split(sep)` (full split, `"" ↦ [""]`). -/
def splitAll (sep : Char) : Str → List Str
  | [] => [[]]
  | c :: cs =>
      if c = sep then [] :: splitAll sep cs
      else match splitAll sep cs with
        | p :: ps => (c :: p) :: ps
        | [] => [[c]]

/-! ## Numbers: `int(...)` and `str(...)` -/

/-- Numeric value of a decimal digit character. -/
def digitVal (c : Char) : ℕ := c.toNat - 48

/-- Value of a big-endian decimal digit string. -/
def digitsToNat (l : Str) : ℕ := l.foldl (fun acc c => 10 * acc + digitVal c) 0

/-- Big-endian decimal digits of `n` (structural fuel recursion so that
concrete descriptors evaluate inside the kernel). -/
def natToStrAux : ℕ → ℕ → Str
  | 0, _ => []
  | fuel + 1, n =>
      if n = 0 then []
      else natToStrAux fuel (n / 10) ++ [Char.ofNat (48 + n % 10)]

/-- `str(n)` for a natural number. -/
def natToStr (n : ℕ) : Str :=
  if n = 0 then ['0'] else natToStrAux n n

/-- `str(i)` for an integer. -/
def intToStr (i : ℤ) : Str :=
  if i < 0 then '-' :: natToStr i.natAbs else natToStr i.toNat

/-- The digit grammar accepted by `int()` after the sign: digits with
single underscores strictly between digits. -/
def digitsUnd : Str → Bool
  | [] => true
  | c :: cs =>
      if c = '_' then
        match cs with
        | c2 :: cs2 => c2.isDigit && digitsUnd cs2
        | [] => false
      else c.isDigit && digitsUnd cs

/-- The numeric value of an `int()` digit body (underscores ignored). -/
def parseDigitsU (l : Str) : Option ℕ :=
  match l with
  | [] => Option.none
  | c :: _ =>
      if c.isDigit && digitsUnd l then
        some (digitsToNat (l.filter (fun c => !(c = '_'))))
      else Option.none

/-- `int(s)` for strings: optional surrounding whitespace, optional sign,
then a non-empty underscore-grouped digit string; anything else raises
(`none`). -/
def pyIntBody : Str → Option ℤ
  | [] => Option.none
  | c :: rest =>
      if c = '+' then (parseDigitsU rest).map (fun n => (n : ℤ))
      else if c = '-' then (parseDigitsU rest).map (fun n => -(n : ℤ))
      else (parseDigitsU (c :: rest)).map (fun n => (n : ℤ))

def pyIntParse (s : Str) : Option ℤ := pyIntBody (pyStrip s)

end Vpn

namespace Vpn

theorem charToNat_ofNat (n : ℕ) (h : n.isValidChar) :
    (Char.ofNat n).toNat = n := by
  simp [Char.ofNat, h, Char.ofNatAux, Char.toNat, UInt32.toNat]

theorem natToStrAux_eq_digits : ∀ (fuel n : ℕ), n ≤ fuel →
    natToStrAux fuel n =
      (Nat.digits 10 n).reverse.map (fun d => Char.ofNat (48 + d)) := by
  intro fuel
  induction fuel with
  | zero =>
      intro n hn
      interval_cases n
      simp [natToStrAux, Nat.digits_zero]
  | succ f ih =>
      intro n hn
      by_cases h0 : n = 0
      · subst h0
        simp [natToStrAux, Nat.digits_zero]
      · have hstep : Nat.digits 10 n = n % 10 :: Nat.digits 10 (n / 10) :=
          Nat.digits_def' (by norm_num) (Nat.pos_of_ne_zero h0)
        rw [natToStrAux, if_neg h0,
          ih (n / 10) (by omega), hstep, List.reverse_cons, List.map_append]
        rfl

theorem natToStr_eq_digits (n : ℕ) :
    natToStr n =
      if n = 0 then ['0']
      else (Nat.digits 10 n).reverse.map (fun d => Char.ofNat (48 + d)) := by
  unfold natToStr
  by_cases h0 : n = 0
  · simp [h0]
  · rw [if_neg h0, if_neg h0, natToStrAux_eq_digits n n le_rfl]

theorem natToStr_digits (n : ℕ) : ∀ c ∈ natToStr n, c.isDigit = true := by
  rw [natToStr_eq_digits]
  split
  · intro c hc
    simp at hc
    subst hc
    decide
  · intro c hc
    simp only [List.mem_map, List.mem_reverse] at hc
    obtain ⟨d, hd, rfl⟩ := hc
    have hlt : d < 10 := Nat.digits_lt_base (by norm_num) hd
    interval_cases d <;> decide

theorem natToStr_ne_nil (n : ℕ) : natToStr n ≠ [] := by
  rw [natToStr_eq_digits]
  split
  · simp
  · simp [Nat.digits_ne_nil_iff_ne_zero]
    intro h
    simp_all

theorem digitsToNat_append_digit (l : Str) (c : Char) :
    digitsToNat (l ++ [c]) = 10 * digitsToNat l + digitVal c := by
  unfold digitsToNat
  rw [List.foldl_append]
  rfl

theorem digitsToNat_natToStr (n : ℕ) : digitsToNat (natToStr n) = n := by
  rw [natToStr_eq_digits]
  split
  · simp_all [digitsToNat, digitVal]
  · rename_i h
    suffices hgen : ∀ ds : List ℕ, (∀ d ∈ ds, d < 10) →
        digitsToNat (ds.reverse.map (fun d => Char.ofNat (48 + d)))
          = Nat.ofDigits 10 ds by
      rw [hgen _ (fun d hd => Nat.digits_lt_base (by norm_num) hd),
        Nat.ofDigits_digits]
    intro ds
    induction ds with
    | nil => intro _; rfl
    | cons d ds ih =>
        intro hlt
        simp only [List.reverse_cons, List.map_append, List.map_cons,
          List.map_nil, digitsToNat_append_digit, Nat.ofDigits_cons]
        rw [ih (fun x hx => hlt x (List.mem_cons_of_mem _ hx))]
        have hv : (48 + d).isValidChar := Or.inl (by
          have := hlt d (List.mem_cons_self d ds)
          omega)
        simp [digitVal, charToNat_ofNat _ hv]
        ring

end Vpn

namespace Vpn

theorem dropWhile_all_false (p : Char → Bool) (l : Str)
    (h : ∀ c ∈ l, p c = false) : l.dropWhile p = l := by
  cases l with
  | nil => rfl
  | cons c cs => simp [List.dropWhile_cons, h c (List.mem_cons_self c cs)]

theorem pyStrip_of_no_space (s : Str) (h : ∀ c ∈ s, isPySpace c = false) :
    pyStrip s = s := by
  unfold pyStrip
  rw [dropWhile_all_false _ _ h,
    dropWhile_all_false _ _ (fun c hc => h c (List.mem_reverse.1 hc)),
    List.reverse_reverse]

theorem isDigit_toNat_bounds (c : Char) (h : c.isDigit = true) :
    48 ≤ c.toNat ∧ c.toNat ≤ 57 := by
  simp only [Char.isDigit, Bool.and_eq_true, decide_eq_true_eq] at h
  obtain ⟨h1, h2⟩ := h
  rw [ge_iff_le, UInt32.le_def, BitVec.le_def] at h1
  rw [UInt32.le_def, BitVec.le_def] at h2
  exact ⟨h1, h2⟩

theorem digit_not_space (c : Char) (h : c.isDigit = true) :
    isPySpace c = false := by
  obtain ⟨h1, h2⟩ := isDigit_toNat_bounds c h
  unfold isPySpace
  simp only [Bool.or_eq_false_iff, Bool.and_eq_false_iff,
    decide_eq_false_iff_not]
  omega

theorem digit_ne_underscore (c : Char) (h : c.isDigit = true) : ¬(c = '_') := by
  intro he
  subst he
  revert h
  decide

theorem digitsUnd_all_digits (l : Str) (h : ∀ c ∈ l, c.isDigit = true) :
    digitsUnd l = true := by
  induction l with
  | nil => rfl
  | cons c cs ih =>
      unfold digitsUnd
      rw [if_neg (digit_ne_underscore c (h c (List.mem_cons_self c cs)))]
      simp [h c (List.mem_cons_self c cs),
        ih (fun x hx => h x (List.mem_cons_of_mem _ hx))]

theorem parseDigitsU_natToStr (n : ℕ) : parseDigitsU (natToStr n) = some n := by
  rcases hs : natToStr n with _ | ⟨c, rest⟩
  · exact absurd hs (natToStr_ne_nil n)
  · have hall : ∀ x ∈ natToStr n, x.isDigit = true := natToStr_digits n
    rw [hs] at hall
    simp only [parseDigitsU]
    rw [if_pos]
    · have hfilter : (c :: rest).filter (fun c => !(c = '_')) = c :: rest := by
        apply List.filter_eq_self.2
        intro a ha
        simp [digit_ne_underscore a (hall a ha)]
      rw [hfilter, ← hs, digitsToNat_natToStr]
    · have hund : digitsUnd (c :: rest) = true := digitsUnd_all_digits _ hall
      simp [hall c (List.mem_cons_self c rest), hund]

theorem pyIntParse_intToStr (i : ℤ) : pyIntParse (intToStr i) = some i := by
  by_cases hneg : i < 0
  · unfold intToStr
    rw [if_pos hneg]
    have hall : ∀ x ∈ natToStr i.natAbs, x.isDigit = true := natToStr_digits _
    unfold pyIntParse
    rw [pyStrip_of_no_space _ (by
      intro c hc
      rcases List.mem_cons.1 hc with h1 | h1
      · subst h1; decide
      · exact digit_not_space c (hall c h1))]
    simp only [pyIntBody]
    rw [if_neg (show ¬(('-' : Char) = '+') by decide)]
    rw [if_pos (by trivial), parseDigitsU_natToStr]
    have : ((i.natAbs : ℤ)) = -i := Int.ofNat_natAbs_of_nonpos (le_of_lt hneg)
    simp [this]
  · unfold intToStr
    rw [if_neg hneg]
    have hall : ∀ x ∈ natToStr i.toNat, x.isDigit = true := natToStr_digits _
    unfold pyIntParse
    rw [pyStrip_of_no_space _ (fun c hc => digit_not_space c (hall c hc))]
    rcases hs : natToStr i.toNat with _ | ⟨c, rest⟩
    · exact absurd hs (natToStr_ne_nil _)
    · have hcd : c.isDigit = true := hall c (by rw [hs]; exact List.mem_cons_self c rest)
      simp only [pyIntBody]
      rw [if_neg (by
          intro he
          subst he
          revert hcd
          decide),
        if_neg (by
          intro he
          subst he
          revert hcd
          decide)]
      rw [← hs, parseDigitsU_natToStr]
      simp
      omega

end Vpn

namespace Vpn

/-! ## base64 (`base64.b64encode` / `b64decode`) -/

/-- The standard base64 alphabet, by 6-bit value. -/
def b64Char (i : ℕ) : Char :=
  if i < 26 then Char.ofNat (65 + i)
  else if i < 52 then Char.ofNat (97 + (i - 26))
  else if i < 62 then Char.ofNat (48 + (i - 52))
  else if i = 62 then '+' else '/'

/-- 6-bit value of a base64 alphabet character. -/
def b64Val (c : Char) : Option ℕ :=
  if 'A' ≤ c ∧ c ≤ 'Z' then some (c.toNat - 65)
  else if 'a' ≤ c ∧ c ≤ 'z' then some (c.toNat - 97 + 26)
  else if '0' ≤ c ∧ c ≤ '9' then some (c.toNat - 48 + 52)
  else if c = '+' then some 62
  else if c = '/' then some 63
  else Option.none

/-- `base64.b64encode` over byte values, three bytes per quad. -/
def b64EncodeGo : List ℕ → Str
  | [] => []
  | [a] => [b64Char (a / 4), b64Char (a % 4 * 16), '=', '=']
  | [a, b] => [b64Char (a / 4), b64Char (a % 4 * 16 + b / 16),
      b64Char (b % 16 * 4), '=']
  | a :: b :: c :: rest =>
      b64Char (a / 4) :: b64Char (a % 4 * 16 + b / 16) ::
      b64Char (b % 16 * 4 + c / 64) :: b64Char (c % 64) :: b64EncodeGo rest

/-- `base64.b64encode(bytes)` as a string. -/
def b64Encode (bs : List ℕ) : Str := b64EncodeGo bs

/-- Decode a padding-free run of base64 data characters. -/
def b64Quads : Str → Option (List ℕ)
  | [] => some []
  | a :: b :: c :: d :: rest =>
      (match b64Val a, b64Val b, b64Val c, b64Val d, b64Quads rest with
       | some va, some vb, some vc, some vd, some tl =>
           some ((va * 4 + vb / 16) :: (vb % 16 * 16 + vc / 4) ::
             (vc % 4 * 64 + vd) :: tl)
       | _, _, _, _, _ => Option.none)
  | [a, b] =>
      (match b64Val a, b64Val b with
       | some va, some vb => some [va * 4 + vb / 16]
       | _, _ => Option.none)
  | [a, b, c] =>
      (match b64Val a, b64Val b, b64Val c with
       | some va, some vb, some vc =>
           some [va * 4 + vb / 16, vb % 16 * 16 + vc / 4]
       | _, _, _ => Option.none)
  | [_] => Option.none

/-- `base64.b64decode(str)`: reject non-ASCII input (the implicit
`.encode('ascii')`), discard characters outside the alphabet (the lenient
`binascii.a2b_base64`), then require well-formed padding.  (The exact
treatment of data after padding in CPython is more lenient still; inputs
of that shape feed only hypotheses here.) -/
def b64DecodeBody (cs : Str) : Option (List ℕ) :=
  if (cs.drop ((cs.takeWhile (fun c => !(c = '='))).length)).all
        (fun c => c = '=') &&
      (cs.drop ((cs.takeWhile (fun c => !(c = '='))).length)).length ≤ 2 &&
      cs.length % 4 = 0 then
    b64Quads (cs.takeWhile (fun c => !(c = '=')))
  else Option.none

def b64Decode (s : Str) : Option (List ℕ) :=
  if s.any (fun c => 128 ≤ c.toNat) then Option.none
  else b64DecodeBody (s.filter (fun c => (b64Val c).isSome || c = '='))

end Vpn

namespace Vpn

theorem b64Val_b64Char : ∀ i < 64, b64Val (b64Char i) = some i := by decide

theorem b64Char_ascii : ∀ i < 64, (b64Char i).toNat < 128 := by decide

theorem takeWhile_append_all (p : Char → Bool) (l1 l2 : Str)
    (h1 : ∀ c ∈ l1, p c = true)
    (h2 : l2 = [] ∨ ∃ c cs, l2 = c :: cs ∧ p c = false) :
    (l1 ++ l2).takeWhile p = l1 := by
  induction l1 with
  | nil =>
      rcases h2 with h2 | ⟨c, cs, rfl, hc⟩
      · simp [h2]
      · simp [List.takeWhile_cons, hc]
  | cons x xs ih =>
      simp only [List.cons_append, List.takeWhile_cons,
        h1 x (List.mem_cons_self x xs), if_true]
      rw [ih (fun c hc => h1 c (List.mem_cons_of_mem _ hc))]

theorem b64_enc_structure (bs : List ℕ) (h : ∀ x ∈ bs, x < 256) :
    ∃ data pad, b64EncodeGo bs = data ++ pad ∧
      (∀ c ∈ data, ∃ i, i < 64 ∧ c = b64Char i) ∧
      (∀ c ∈ pad, c = '=') ∧ pad.length ≤ 2 ∧
      (data.length + pad.length) % 4 = 0 ∧
      b64Quads data = some bs := by
  induction bs using b64EncodeGo.induct with
  | case1 =>
      exact ⟨[], [], rfl, by simp, by simp, by simp, by simp, rfl⟩
  | case2 a =>
      have ha : a < 256 := h a (by simp)
      refine ⟨[b64Char (a / 4), b64Char (a % 4 * 16)], ['=', '='],
        rfl, ?_, by simp, by simp, by simp, ?_⟩
      · intro c hc
        simp only [List.mem_cons, List.not_mem_nil, or_false] at hc
        rcases hc with hc | hc
        · exact ⟨a / 4, by omega, hc⟩
        · exact ⟨a % 4 * 16, by omega, hc⟩
      · have e1 := b64Val_b64Char (a / 4) (by omega)
        have e2 := b64Val_b64Char (a % 4 * 16) (by omega)
        simp [b64Quads, e1, e2]
        omega
  | case3 a b =>
      have ha : a < 256 := h a (by simp)
      have hb : b < 256 := h b (by simp)
      refine ⟨[b64Char (a / 4), b64Char (a % 4 * 16 + b / 16),
        b64Char (b % 16 * 4)], ['='], rfl, ?_, by simp, by simp, by simp, ?_⟩
      · intro c hc
        simp only [List.mem_cons, List.not_mem_nil, or_false] at hc
        rcases hc with hc | hc | hc
        · exact ⟨a / 4, by omega, hc⟩
        · exact ⟨a % 4 * 16 + b / 16, by omega, hc⟩
        · exact ⟨b % 16 * 4, by omega, hc⟩
      · have e1 := b64Val_b64Char (a / 4) (by omega)
        have e2 := b64Val_b64Char (a % 4 * 16 + b / 16) (by omega)
        have e3 := b64Val_b64Char (b % 16 * 4) (by omega)
        simp [b64Quads, e1, e2, e3]
        constructor <;> omega
  | case4 a b c rest ih =>
      have ha : a < 256 := h a (by simp)
      have hb : b < 256 := h b (by simp)
      have hc : c < 256 := h c (by simp)
      obtain ⟨data, pad, henc, hdata, hpad, hplen, hlen, hquads⟩ :=
        ih (fun x hx => h x (by simp [hx]))
      refine ⟨b64Char (a / 4) :: b64Char (a % 4 * 16 + b / 16) ::
        b64Char (b % 16 * 4 + c / 64) :: b64Char (c % 64) :: data, pad,
        by simp [b64EncodeGo, henc], ?_, hpad, hplen, by simp; omega, ?_⟩
      · intro x hx
        simp only [List.mem_cons] at hx
        rcases hx with hx | hx | hx | hx | hx
        · exact ⟨a / 4, by omega, hx⟩
        · exact ⟨a % 4 * 16 + b / 16, by omega, hx⟩
        · exact ⟨b % 16 * 4 + c / 64, by omega, hx⟩
        · exact ⟨c % 64, by omega, hx⟩
        · exact hdata x hx
      · have e1 := b64Val_b64Char (a / 4) (by omega)
        have e2 := b64Val_b64Char (a % 4 * 16 + b / 16) (by omega)
        have e3 := b64Val_b64Char (b % 16 * 4 + c / 64) (by omega)
        have e4 := b64Val_b64Char (c % 64) (by omega)
        simp [b64Quads, e1, e2, e3, e4, hquads]
        refine ⟨by omega, by omega, by omega⟩

end Vpn

namespace Vpn

theorem b64_roundtrip (bs : List ℕ) (h : ∀ x ∈ bs, x < 256) :
    b64Decode (b64Encode bs) = some bs := by
  obtain ⟨data, pad, henc, hdata, hpad, hplen, hlen, hquads⟩ :=
    b64_enc_structure bs h
  have hne : ∀ c ∈ data, (!(c = '=')) = true := by
    intro c hc
    obtain ⟨i, hi, rfl⟩ := hdata c hc
    have hv := b64Val_b64Char i hi
    simp only [Bool.not_eq_true', decide_eq_false_iff_not]
    intro he
    have hnone : b64Val '=' = Option.none := by decide
    rw [he, hnone] at hv
    exact Option.noConfusion hv
  have htake : ((data ++ pad).takeWhile (fun c => !(c = '='))) = data := by
    apply takeWhile_append_all _ _ _ hne
    cases pad with
    | nil => exact Or.inl rfl
    | cons p ps =>
        refine Or.inr ⟨p, ps, rfl, ?_⟩
        rw [hpad p (List.mem_cons_self p ps)]
        decide
  have hdrop : (data ++ pad).drop data.length = pad := by
    simp
  have hascii : ((data ++ pad).any fun c => decide (128 ≤ c.toNat)) = false := by
    rw [List.any_eq_false]
    intro c hc
    rcases List.mem_append.1 hc with hc | hc
    · obtain ⟨i, hi, rfl⟩ := hdata c hc
      have := b64Char_ascii i hi
      simp
      omega
    · rw [hpad c hc]
      decide
  have hfilter : ((data ++ pad).filter
      (fun c => (b64Val c).isSome || c = '=')) = data ++ pad := by
    apply List.filter_eq_self.2
    intro c hc
    rcases List.mem_append.1 hc with hc | hc
    · obtain ⟨i, hi, rfl⟩ := hdata c hc
      simp [b64Val_b64Char i hi]
    · rw [hpad c hc]
      decide
  unfold b64Decode b64Encode
  rw [henc, hascii, hfilter]
  simp only [Bool.false_eq_true, if_false]
  unfold b64DecodeBody
  rw [htake, hdrop]
  have hcond : (pad.all (fun c => decide (c = '=')) &&
      decide (pad.length ≤ 2) &&
      decide ((data ++ pad).length % 4 = 0)) = true := by
    simp only [Bool.and_eq_true, List.all_eq_true]
    refine ⟨⟨?_, by simp [hplen]⟩, by simp [List.length_append, hlen]⟩
    intro c hc
    simp [hpad c hc]
  rw [hcond]
  simp [hquads]

end Vpn

namespace Vpn

/-! ## UTF-8 (`str.encode()` / `bytes.decode("utf-8")`) -/

/-- UTF-8 encoding of one unicode scalar. -/
def utf8EncodeChar (c : Char) : List ℕ :=
  let v := c.toNat
  if v < 0x80 then [v]
  else if v < 0x800 then [0xC0 + v / 64, 0x80 + v % 64]
  else if v < 0x10000 then
    [0xE0 + v / 4096, 0x80 + v / 64 % 64, 0x80 + v % 64]
  else [0xF0 + v / 262144, 0x80 + v / 4096 % 64, 0x80 + v / 64 % 64,
    0x80 + v % 64]

/-- `str.encode("utf-8")`. -/
def utf8Encode (s : Str) : List ℕ :=
  s.foldr (fun c acc => utf8EncodeChar c ++ acc) []

/-- Decode one UTF-8 sequence from the front: strict about truncated and
overlong sequences, surrogates and out-of-range values. -/
def utf8DecOne (l : List ℕ) : Option (Char × List ℕ) :=
  match l with
  | [] => Option.none
  | b :: rest =>
    if b < 0x80 then some (Char.ofNat b, rest)
    else if b < 0xC2 then Option.none
    else if b < 0xE0 then
      match rest with
      | b2 :: rest2 =>
          if 0x80 ≤ b2 ∧ b2 < 0xC0 then
            some (Char.ofNat ((b - 0xC0) * 64 + (b2 - 0x80)), rest2)
          else Option.none
      | [] => Option.none
    else if b < 0xF0 then
      match rest with
      | b2 :: b3 :: rest3 =>
          if (0x80 ≤ b2 ∧ b2 < 0xC0) ∧ (0x80 ≤ b3 ∧ b3 < 0xC0) then
            if 0x800 ≤ (b - 0xE0) * 4096 + (b2 - 0x80) * 64 + (b3 - 0x80) ∧
                ¬(0xD800 ≤ (b - 0xE0) * 4096 + (b2 - 0x80) * 64 + (b3 - 0x80) ∧
                  (b - 0xE0) * 4096 + (b2 - 0x80) * 64 + (b3 - 0x80) < 0xE000)
            then
              some (Char.ofNat
                ((b - 0xE0) * 4096 + (b2 - 0x80) * 64 + (b3 - 0x80)), rest3)
            else Option.none
          else Option.none
      | _ => Option.none
    else if b < 0xF5 then
      match rest with
      | b2 :: b3 :: b4 :: rest4 =>
          if (0x80 ≤ b2 ∧ b2 < 0xC0) ∧ (0x80 ≤ b3 ∧ b3 < 0xC0) ∧
              (0x80 ≤ b4 ∧ b4 < 0xC0) then
            if 0x10000 ≤ (b - 0xF0) * 262144 + (b2 - 0x80) * 4096 +
                  (b3 - 0x80) * 64 + (b4 - 0x80) ∧
                (b - 0xF0) * 262144 + (b2 - 0x80) * 4096 +
                  (b3 - 0x80) * 64 + (b4 - 0x80) < 0x110000 then
              some (Char.ofNat ((b - 0xF0) * 262144 + (b2 - 0x80) * 4096 +
                (b3 - 0x80) * 64 + (b4 - 0x80)), rest4)
            else Option.none
          else Option.none
      | _ => Option.none
    else Option.none

/-- The decode loop, with fuel bounded by the byte count. -/
def utf8DecodeGo : ℕ → List ℕ → Option Str
  | _, [] => some []
  | 0, _ :: _ => Option.none
  | fuel + 1, b :: rest =>
      match utf8DecOne (b :: rest) with
      | some (c, rest2) => (utf8DecodeGo fuel rest2).map (fun s => c :: s)
      | Option.none => Option.none

/-- Strict `bytes.decode("utf-8")` (`none` = `UnicodeDecodeError`). -/
def utf8Decode (l : List ℕ) : Option Str := utf8DecodeGo l.length l

theorem char_toNat_lt (c : Char) : c.toNat < 0x110000 := by
  have h := c.valid
  unfold UInt32.isValidChar Nat.isValidChar at h
  rcases h with h | ⟨_, h2⟩
  · exact Nat.lt_trans h (by norm_num)
  · exact h2

theorem char_not_surrogate (c : Char) :
    ¬(0xD800 ≤ c.toNat ∧ c.toNat < 0xE000) := by
  have h := c.valid
  unfold UInt32.isValidChar Nat.isValidChar at h
  have he : c.toNat = c.val.toNat := rfl
  rcases h with h | ⟨h1, _⟩
  · omega
  · omega

theorem utf8EncodeChar_bytes_lt (c : Char) :
    ∀ b ∈ utf8EncodeChar c, b < 256 := by
  have hval : c.toNat < 0x110000 := char_toNat_lt c
  intro b hb
  by_cases h1 : c.toNat < 0x80
  · simp [utf8EncodeChar, h1] at hb
    omega
  · by_cases h2 : c.toNat < 0x800
    · simp [utf8EncodeChar, h1, h2] at hb
      rcases hb with rfl | rfl <;> omega
    · by_cases h3 : c.toNat < 0x10000
      · simp [utf8EncodeChar, h1, h2, h3] at hb
        rcases hb with rfl | rfl | rfl <;> omega
      · simp [utf8EncodeChar, h1, h2, h3] at hb
        rcases hb with rfl | rfl | rfl | rfl <;> omega

end Vpn

namespace Vpn

end Vpn

namespace Vpn

theorem utf8DecOne_encodeChar (c : Char) (rest : List ℕ) :
    utf8DecOne (utf8EncodeChar c ++ rest) = some (c, rest) := by
  have hval := char_toNat_lt c
  have hsur := char_not_surrogate c
  by_cases h1 : c.toNat < 0x80
  · simp only [utf8EncodeChar, if_pos h1, List.cons_append, List.nil_append]
    simp only [utf8DecOne]
    rw [if_pos h1, Char.ofNat_toNat]
  · by_cases h2 : c.toNat < 0x800
    · simp only [utf8EncodeChar, if_neg h1, if_pos h2, List.cons_append,
        List.nil_append]
      simp only [utf8DecOne]
      rw [if_neg (by omega), if_neg (by omega), if_pos (by omega),
        if_pos (by omega)]
      have harith : (0xC0 + c.toNat / 64 - 0xC0) * 64 +
          (0x80 + c.toNat % 64 - 0x80) = c.toNat := by omega
      rw [harith, Char.ofNat_toNat]
    · by_cases h3 : c.toNat < 0x10000
      · simp only [utf8EncodeChar, if_neg h1, if_neg h2, if_pos h3,
          List.cons_append, List.nil_append]
        simp only [utf8DecOne]
        rw [if_neg (by omega), if_neg (by omega), if_neg (by omega),
          if_pos (by omega), if_pos (by omega), if_pos (by omega)]
        have harith : (0xE0 + c.toNat / 4096 - 0xE0) * 4096 +
            (0x80 + c.toNat / 64 % 64 - 0x80) * 64 +
            (0x80 + c.toNat % 64 - 0x80) = c.toNat := by omega
        rw [harith, Char.ofNat_toNat]
      · simp only [utf8EncodeChar, if_neg h1, if_neg h2, if_neg h3,
          List.cons_append, List.nil_append]
        simp only [utf8DecOne]
        rw [if_neg (by omega), if_neg (by omega), if_neg (by omega),
          if_neg (by omega), if_pos (by omega), if_pos (by omega),
          if_pos (by omega)]
        have harith : (0xF0 + c.toNat / 262144 - 0xF0) * 262144 +
            (0x80 + c.toNat / 4096 % 64 - 0x80) * 4096 +
            (0x80 + c.toNat / 64 % 64 - 0x80) * 64 +
            (0x80 + c.toNat % 64 - 0x80) = c.toNat := by omega
        rw [harith, Char.ofNat_toNat]

theorem utf8EncodeChar_ne_nil (c : Char) : utf8EncodeChar c ≠ [] := by
  by_cases h1 : c.toNat < 0x80
  · simp [utf8EncodeChar, h1]
  · by_cases h2 : c.toNat < 0x800
    · simp [utf8EncodeChar, h1, h2]
    · by_cases h3 : c.toNat < 0x10000
      · simp [utf8EncodeChar, h1, h2, h3]
      · simp [utf8EncodeChar, h1, h2, h3]

theorem utf8DecodeGo_encode (s : Str) : ∀ fuel,
    (utf8Encode s).length ≤ fuel →
    utf8DecodeGo fuel (utf8Encode s) = some s := by
  induction s with
  | nil =>
      intro fuel h
      cases fuel <;> rfl
  | cons c cs ih =>
      intro fuel h
      have henc : utf8Encode (c :: cs) = utf8EncodeChar c ++ utf8Encode cs :=
        rfl
      rw [henc] at h ⊢
      rcases he : utf8EncodeChar c with _ | ⟨b, tl⟩
      · exact absurd he (utf8EncodeChar_ne_nil c)
      · rw [he] at h
        simp only [List.cons_append, List.length_cons] at h ⊢
        cases fuel with
        | zero => omega
        | succ f =>
            simp only [utf8DecodeGo]
            have hstep : utf8DecOne (b :: (tl ++ utf8Encode cs))
                = some (c, utf8Encode cs) := by
              have hx := utf8DecOne_encodeChar c (utf8Encode cs)
              rw [he] at hx
              simpa using hx
            rw [hstep]
            show ((utf8DecodeGo f (utf8Encode cs)).map (fun s => c :: s))
              = some (c :: cs)
            rw [ih f (by
              have := List.length_append tl (utf8Encode cs)
              omega)]
            rfl

theorem utf8_roundtrip (s : Str) : utf8Decode (utf8Encode s) = some s :=
  utf8DecodeGo_encode s _ le_rfl

end Vpn

namespace Vpn

/-! ## Percent decoding (`urllib.parse.unquote`, `parse_qs`) -/

/-- UTF-8 decoding with `errors="replace"`: an undecodable position emits
U+FFFD and resynchronises at the next byte (a mild simplification of
CPython's maximal-subpart consumption, exercised only on malformed
escapes). -/
def utf8ReplaceGo : ℕ → List ℕ → Str
  | _, [] => []
  | 0, _ :: _ => []
  | fuel + 1, b :: rest =>
      match utf8DecOne (b :: rest) with
      | some (c, rest2) => c :: utf8ReplaceGo fuel rest2
      | Option.none => Char.ofNat 0xFFFD :: utf8ReplaceGo fuel rest

/-- `bytes.decode("utf-8", errors="replace")`. -/
def utf8Replace (l : List ℕ) : Str := utf8ReplaceGo l.length l

/-- Hex digit value. -/
def hexVal (c : Char) : Option ℕ :=
  if '0' ≤ c ∧ c ≤ '9' then some (c.toNat - 48)
  else if 'a' ≤ c ∧ c ≤ 'f' then some (c.toNat - 97 + 10)
  else if 'A' ≤ c ∧ c ≤ 'F' then some (c.toNat - 65 + 10)
  else Option.none

/-- The scan of `urllib.parse.unquote`: maximal runs of `%XX` escapes are
collected as bytes (`acc`, reversed) and decoded together with
replacement; an invalid escape keeps its `%` literally. -/
def unquoteAcc : Str → List ℕ → Str
  | [], acc => utf8Replace acc.reverse
  | '%' :: a :: b :: rest, acc =>
      (match hexVal a, hexVal b with
       | some ha, some hb => unquoteAcc rest ((ha * 16 + hb) :: acc)
       | _, _ =>
           utf8Replace acc.reverse ++ '%' :: unquoteAcc (a :: b :: rest) [])
  | c :: cs, acc => utf8Replace acc.reverse ++ c :: unquoteAcc cs []

/-- `urllib.parse.unquote` (UTF-8, `errors="replace"`). -/
def unquote (s : Str) : Str := unquoteAcc s []

/-- `urllib.parse.unquote_plus`: `+` to space, then unquote. -/
def unquotePlus (s : Str) : Str :=
  unquote (s.map (fun c => if c = '+' then ' ' else c))

/-- The pair list of `parse_qsl` (`keep_blank_values=False`): split on
`&`, keep pieces with an `=` and a non-empty value, decode both sides. -/
def qsPairs (q : Str) : List (Str × Str) :=
  (splitAll '&' q).filterMap (fun piece =>
    match splitFirst '=' piece with
    | some (k, v) =>
        if v.isEmpty then Option.none
        else some (unquotePlus k, unquotePlus v)
    | Option.none => Option.none)

/-- First pair per key, in first-appearance key order. -/
def qsFirstGo (seen : List Str) : List (Str × Str) → List (Str × Str)
  | [] => []
  | kv :: rest =>
      if kv.1 ∈ seen then qsFirstGo seen rest
      else kv :: qsFirstGo (kv.1 :: seen) rest

/-- `{k: v[0] for k, v in parse_qs(q).items()}` — the parser's params
dict: first value per key, keys in first-appearance order. -/
def qsParams (q : Str) : List (Str × Str) := qsFirstGo [] (qsPairs q)

theorem unquoteAcc_no_pct : ∀ (s : Str) (acc : List ℕ),
    (∀ c ∈ s, ¬(c = '%')) →
    unquoteAcc s acc = utf8Replace acc.reverse ++ s := by
  intro s acc
  induction s, acc using unquoteAcc.induct with
  | case1 acc => intro _; simp [unquoteAcc]
  | case2 a b rest acc ha hb ih =>
      intro h
      exact absurd rfl (h '%' (by simp))
  | case3 a b rest acc hnot ih =>
      intro h
      exact absurd rfl (h '%' (by simp))
  | case4 c cs acc hne ih =>
      intro h
      rw [unquoteAcc]
      · rw [ih (fun x hx => h x (List.mem_cons_of_mem _ hx))]
        simp [utf8Replace, utf8ReplaceGo]
      · exact fun a b rest hcs => absurd (hcs ▸ rfl : c = '%')
          (h c (List.mem_cons_self c cs))

theorem unquote_no_pct (s : Str) (h : ∀ c ∈ s, ¬(c = '%')) :
    unquote s = s := by
  rw [unquote, unquoteAcc_no_pct s [] h]
  rfl

theorem unquotePlus_clean (s : Str) (h : ∀ c ∈ s, ¬(c = '%') ∧ ¬(c = '+')) :
    unquotePlus s = s := by
  rw [unquotePlus]
  have hmap : s.map (fun c => if c = '+' then ' ' else c) = s := by
    induction s with
    | nil => rfl
    | cons c cs ih =>
        simp only [List.map_cons]
        rw [if_neg (h c (List.mem_cons_self c cs)).2,
          ih (fun x hx => h x (List.mem_cons_of_mem _ hx))]
  rw [hmap]
  exact unquote_no_pct s (fun c hc => (h c hc).1)

end Vpn

namespace Vpn

/-! ## JSON (`json.dumps` / `json.loads`), restricted to flat objects with
scalar members — the shape the vmess pipeline produces and re-parses.
Nested containers and non-integral numbers are outside the model (a
payload using them makes the modelled `jsonLoads` reject where CPython
would parse). -/

/-- Lower-case hex digit. -/
def hexDigit (n : ℕ) : Char :=
  if n < 10 then Char.ofNat (48 + n) else Char.ofNat (97 + (n - 10))

/-- `json.dumps` escaping of one character (`ensure_ascii=False`): only
`"`, `\` and control characters are escaped. -/
def escChar (c : Char) : Str :=
  if c = '"' then ['\\', '"']
  else if c = '\\' then ['\\', '\\']
  else if c = Char.ofNat 8 then ['\\', 'b']
  else if c = Char.ofNat 9 then ['\\', 't']
  else if c = Char.ofNat 10 then ['\\', 'n']
  else if c = Char.ofNat 12 then ['\\', 'f']
  else if c = Char.ofNat 13 then ['\\', 'r']
  else if c.toNat < 0x20 then
    ['\\', 'u', '0', '0', hexDigit (c.toNat / 16), hexDigit (c.toNat % 16)]
  else [c]

/-- Escape a whole string body. -/
def jsonEscape (s : Str) : Str := s.foldr (fun c acc => escChar c ++ acc) []

/-- Serialise one scalar JSON value. -/
def jsonDumpVal : PyVal → Str
  | .str s => '"' :: jsonEscape s ++ ['"']
  | .int n => intToStr n
  | .bool b => if b then "true".toList else "false".toList
  | .none => "null".toList

/-- `", "`-joined member list. -/
def jsonMembersStr : Bag → Str
  | [] => []
  | [kv] => '"' :: jsonEscape kv.1 ++ '"' :: ':' :: ' ' :: jsonDumpVal kv.2
  | kv :: rest =>
      '"' :: jsonEscape kv.1 ++ '"' :: ':' :: ' ' :: jsonDumpVal kv.2 ++
        ',' :: ' ' :: jsonMembersStr rest

/-- `json.dumps(obj, ensure_ascii=False)` for a flat object (default
separators `", "` and `": "`). -/
def jsonDumps (obj : Bag) : Str := '{' :: jsonMembersStr obj ++ ['}']

/-- JSON whitespace. -/
def isJsonWs (c : Char) : Bool :=
  c = ' ' || c = Char.ofNat 9 || c = Char.ofNat 10 || c = Char.ofNat 13

/-- One unit of a JSON string body: `none` result marks the closing
quote; surrogate `\\u` escapes are rejected (CPython combines pairs —
outside the model). -/
def jStrStep : Str → Option (Option Char × Str)
  | [] => Option.none
  | c :: rest =>
      if c = '"' then some (Option.none, rest)
      else if c = '\\' then
        match rest with
        | 'u' :: h1 :: h2 :: h3 :: h4 :: rest2 =>
            (match hexVal h1, hexVal h2, hexVal h3, hexVal h4 with
             | some a, some b, some c2, some d =>
                 if 0xD800 ≤ a * 4096 + b * 256 + c2 * 16 + d ∧
                     a * 4096 + b * 256 + c2 * 16 + d < 0xE000 then
                   Option.none
                 else some (some (Char.ofNat
                   (a * 4096 + b * 256 + c2 * 16 + d)), rest2)
             | _, _, _, _ => Option.none)
        | e :: rest2 =>
            (match (if e = '"' then some '"'
                    else if e = '\\' then some '\\'
                    else if e = '/' then some '/'
                    else if e = 'b' then some (Char.ofNat 8)
                    else if e = 'f' then some (Char.ofNat 12)
                    else if e = 'n' then some (Char.ofNat 10)
                    else if e = 'r' then some (Char.ofNat 13)
                    else if e = 't' then some (Char.ofNat 9)
                    else Option.none) with
             | some c2 => some (some c2, rest2)
             | Option.none => Option.none)
        | [] => Option.none
      else if c.toNat < 0x20 then Option.none
      else some (some c, rest)

/-- The string-body loop, fuel-bounded. -/
def jStrGo : ℕ → Str → Option (Str × Str)
  | 0, _ => Option.none
  | fuel + 1, s =>
      match jStrStep s with
      | some (Option.none, rest) => some ([], rest)
      | some (some c, rest) => (jStrGo fuel rest).map (fun p => (c :: p.1, p.2))
      | Option.none => Option.none

/-- Parse a JSON string body after the opening quote: content and rest. -/
def jStr (s : Str) : Option (Str × Str) := jStrGo (s.length + 1) s

/-- Parse a maximal natural-number literal (strict JSON grammar: a bare
`0` or a non-zero leading digit; a following digit after `0` rejects). -/
def jNumNat (s : Str) : Option (ℕ × Str) :=
  match s with
  | [] => Option.none
  | c :: rest =>
      if c = '0' then
        if (rest.headD ' ').isDigit then Option.none else some (0, rest)
      else if c.isDigit then
        some (digitsToNat ((c :: rest).takeWhile Char.isDigit),
          (c :: rest).dropWhile Char.isDigit)
      else Option.none

/-- Parse a JSON integer (no fraction/exponent — model restriction). -/
def jNum (s : Str) : Option (ℤ × Str) :=
  match s with
  | [] => Option.none
  | c :: rest =>
      if c = '-' then
        (match jNumNat rest with
         | some (n, rest2) => some (-(n : ℤ), rest2)
         | Option.none => Option.none)
      else
        (match jNumNat (c :: rest) with
         | some (n, rest2) => some ((n : ℤ), rest2)
         | Option.none => Option.none)

/-- Parse one scalar JSON value. -/
def jValue (s : Str) : Option (PyVal × Str) :=
  match s with
  | [] => Option.none
  | c :: rest =>
      if c = '"' then (jStr rest).map (fun p => (PyVal.str p.1, p.2))
      else if hasPfx "true".toList (c :: rest) then
        some (PyVal.bool true, (c :: rest).drop 4)
      else if hasPfx "false".toList (c :: rest) then
        some (PyVal.bool false, (c :: rest).drop 5)
      else if hasPfx "null".toList (c :: rest) then
        some (PyVal.none, (c :: rest).drop 4)
      else
        (match jNum (c :: rest) with
         | some (n, rest2) => some (PyVal.int n, rest2)
         | Option.none => Option.none)

/-- Parse the members of an object after `{`, accumulating with the
last-duplicate-wins dictionary semantics of `json.loads`. -/
def jMembers : ℕ → Bool → Str → Bag → Option (Bag × Str)
  | 0, _, _, _ => Option.none
  | fuel + 1, allowEnd, s, acc =>
      match s.dropWhile isJsonWs with
      | [] => Option.none
      | c :: rest =>
          if c = '}' then (if allowEnd then some (acc, rest) else Option.none)
          else if c = '"' then
            (match jStr rest with
             | some (k, rest2) =>
                 (match (rest2.dropWhile isJsonWs) with
                  | c2 :: rest3 =>
                      if c2 = ':' then
                        (match jValue (rest3.dropWhile isJsonWs) with
                         | some (v, rest4) =>
                             (match (rest4.dropWhile isJsonWs) with
                              | c3 :: rest5 =>
                                  if c3 = ',' then
                                    jMembers fuel false rest5 (Bag.set acc k v)
                                  else if c3 = '}' then
                                    some (Bag.set acc k v, rest5)
                                  else Option.none
                              | [] => Option.none)
                         | Option.none => Option.none)
                      else Option.none
                  | [] => Option.none)
             | Option.none => Option.none)
          else Option.none

/-- `json.loads` restricted to flat scalar objects (`none` both for
malformed documents and for shapes outside the model). -/
def jsonLoads (s : Str) : Option Bag :=
  match s.dropWhile isJsonWs with
  | '{' :: rest =>
      (match jMembers (rest.length + 1) true rest [] with
       | some (obj, rest2) =>
           if (rest2.dropWhile isJsonWs).isEmpty then some obj
           else Option.none
       | Option.none => Option.none)
  | _ => Option.none

end Vpn

namespace Vpn

theorem hexVal_hexDigit : ∀ n < 16, hexVal (hexDigit n) = some n := by decide

theorem jStrStep_escChar (c : Char) (tail : Str) :
    jStrStep (escChar c ++ tail) = some (some c, tail) := by
  by_cases h1 : c = '"'
  · subst h1
    rfl
  · by_cases h2 : c = '\\'
    · subst h2
      rfl
    · by_cases h3 : c = Char.ofNat 8
      · subst h3
        rfl
      · by_cases h4 : c = Char.ofNat 9
        · subst h4
          rfl
        · by_cases h5 : c = Char.ofNat 10
          · subst h5
            rfl
          · by_cases h6 : c = Char.ofNat 12
            · subst h6
              rfl
            · by_cases h7 : c = Char.ofNat 13
              · subst h7
                rfl
              · by_cases h8 : c.toNat < 0x20
                · simp only [escChar, if_neg h1, if_neg h2, if_neg h3,
                    if_neg h4, if_neg h5, if_neg h6, if_neg h7, if_pos h8,
                    List.cons_append, List.nil_append]
                  have e1 : hexVal '0' = some 0 := by decide
                  have e2 := hexVal_hexDigit (c.toNat / 16) (by omega)
                  have e3 := hexVal_hexDigit (c.toNat % 16) (by omega)
                  have harith : (0 : ℕ) * 4096 + 0 * 256 +
                      c.toNat / 16 * 16 + c.toNat % 16 = c.toNat := by omega
                  have hns : ¬(0xD800 ≤ c.toNat ∧ c.toNat < 0xE000) := by
                    omega
                  simp [jStrStep, e1, e2, e3, harith, hns,
                    Char.ofNat_toNat]
                  have harith2 : c.toNat / 16 * 16 + c.toNat % 16
                      = c.toNat := by omega
                  refine ⟨by omega, ?_⟩
                  rw [harith2, Char.ofNat_toNat]
                · simp only [escChar, if_neg h1, if_neg h2, if_neg h3,
                    if_neg h4, if_neg h5, if_neg h6, if_neg h7, if_neg h8,
                    List.cons_append, List.nil_append]
                  simp only [jStrStep]
                  rw [if_neg h1, if_neg h2, if_neg h8]

theorem escChar_ne_nil (c : Char) : escChar c ≠ [] := by
  unfold escChar
  repeat' split
  all_goals exact List.cons_ne_nil _ _

theorem jStrGo_escape (s : Str) : ∀ (fuel : ℕ) (rest : Str),
    (jsonEscape s).length + 1 ≤ fuel →
    jStrGo fuel (jsonEscape s ++ '"' :: rest) = some (s, rest) := by
  induction s with
  | nil =>
      intro fuel rest h
      cases fuel with
      | zero => omega
      | succ f =>
          simp only [jsonEscape, List.foldr_nil, List.nil_append, jStrGo]
          rfl
  | cons c cs ih =>
      intro fuel rest h
      have henc : jsonEscape (c :: cs) = escChar c ++ jsonEscape cs := rfl
      rw [henc] at h ⊢
      have hlen : 1 ≤ (escChar c).length := by
        cases he : escChar c with
        | nil => exact absurd he (escChar_ne_nil c)
        | cons x xs => simp
      rw [List.length_append] at h
      cases fuel with
      | zero => omega
      | succ f =>
          simp only [jStrGo, List.append_assoc]
          rw [jStrStep_escChar]
          show ((jStrGo f (jsonEscape cs ++ '"' :: rest)).map
            (fun p => (c :: p.1, p.2))) = some (c :: cs, rest)
          rw [ih f rest (by omega)]
          rfl

theorem jStr_escape (s : Str) (rest : Str) :
    jStr (jsonEscape s ++ '"' :: rest) = some (s, rest) := by
  apply jStrGo_escape
  simp [List.length_append]

end Vpn

namespace Vpn

theorem dropWhile_append_all (p : Char → Bool) (l1 l2 : Str)
    (h1 : ∀ c ∈ l1, p c = true)
    (h2 : l2 = [] ∨ ∃ c cs, l2 = c :: cs ∧ p c = false) :
    (l1 ++ l2).dropWhile p = l2 := by
  induction l1 with
  | nil =>
      rcases h2 with h2 | ⟨c, cs, rfl, hc⟩
      · simp [h2]
      · simp [List.dropWhile_cons, hc]
  | cons x xs ih =>
      simp only [List.cons_append, List.dropWhile_cons,
        h1 x (List.mem_cons_self x xs), if_true]
      exact ih (fun c hc => h1 c (List.mem_cons_of_mem _ hc))

theorem natToStr_toNat_bounds (n : ℕ) :
    ∀ c ∈ natToStr n, 48 ≤ c.toNat ∧ c.toNat ≤ 57 := by
  rw [natToStr_eq_digits]
  split
  · intro c hc
    simp at hc
    subst hc
    decide
  · intro c hc
    simp only [List.mem_map, List.mem_reverse] at hc
    obtain ⟨d, hd, rfl⟩ := hc
    have hlt : d < 10 := Nat.digits_lt_base (by norm_num) hd
    interval_cases d <;> decide

theorem natToStr_head_ne_zero (n : ℕ) (hn : n ≠ 0) (c : Char) (rest : Str)
    (he : natToStr n = c :: rest) : ¬(c = '0') := by
  have hne : Nat.digits 10 n ≠ [] := Nat.digits_ne_nil_iff_ne_zero.mpr hn
  have hult := Nat.getLast_digit_ne_zero 10 hn
  rw [natToStr_eq_digits, if_neg hn] at he
  have hh : ((Nat.digits 10 n).reverse.map
      (fun d => Char.ofNat (48 + d))).head? = some c := by
    rw [he]
    rfl
  rw [List.head?_map, List.head?_reverse] at hh
  obtain ⟨d, hd, hcd⟩ := Option.map_eq_some'.1 hh
  have hdmem : d ∈ Nat.digits 10 n := by
    have := List.getLast?_eq_getLast _ hne
    rw [this] at hd
    injection hd with hd
    rw [← hd]
    exact List.getLast_mem hne
  have hdz : d ≠ 0 := by
    have := List.getLast?_eq_getLast _ hne
    rw [this] at hd
    injection hd with hd
    rw [← hd]
    exact hult
  have hdlt : d < 10 := Nat.digits_lt_base (by norm_num) hdmem
  intro hc
  rw [hc] at hcd
  have hv : (48 + d).isValidChar := Or.inl (by omega)
  have hofn : (Char.ofNat (48 + d)).toNat = 48 + d := charToNat_ofNat _ hv
  rw [hcd] at hofn
  have h48 : ('0' : Char).toNat = 48 := rfl
  omega

theorem jNumNat_natToStr (n : ℕ) (tail : Str)
    (htail : (tail.headD ' ').isDigit = false) :
    jNumNat (natToStr n ++ tail) = some (n, tail) := by
  have hall : ∀ c ∈ natToStr n, c.isDigit = true := natToStr_digits n
  have htail2 : tail = [] ∨ ∃ c cs, tail = c :: cs ∧ c.isDigit = false := by
    cases tail with
    | nil => exact Or.inl rfl
    | cons c cs => exact Or.inr ⟨c, cs, rfl, by simpa using htail⟩
  by_cases hn : n = 0
  · subst hn
    have htail3 : ((tail.head?).getD ' ').isDigit = false := by
      cases tail <;> simp_all
    have h0 : natToStr 0 = ['0'] := rfl
    rw [h0]
    simp [jNumNat, htail3]
  · rcases he : natToStr n with _ | ⟨c, rest⟩
    · exact absurd he (natToStr_ne_nil n)
    · have hcd : c.isDigit = true :=
        hall c (by rw [he]; exact List.mem_cons_self c rest)
      have hc0 : ¬(c = '0') := natToStr_head_ne_zero n hn c rest he
      rw [List.cons_append]
      simp only [jNumNat]
      rw [if_neg hc0, if_pos hcd]
      rw [← List.cons_append, ← he,
        takeWhile_append_all _ _ _ hall htail2,
        dropWhile_append_all _ _ _ hall htail2,
        digitsToNat_natToStr]

theorem jNum_intToStr (i : ℤ) (tail : Str)
    (htail : (tail.headD ' ').isDigit = false) :
    jNum (intToStr i ++ tail) = some (i, tail) := by
  by_cases hneg : i < 0
  · unfold intToStr
    rw [if_pos hneg, List.cons_append]
    simp only [jNum]
    rw [if_pos (by trivial), jNumNat_natToStr _ _ htail]
    simp only [Option.some.injEq, Prod.mk.injEq]
    constructor
    · omega
    · trivial
  · unfold intToStr
    rw [if_neg hneg]
    rcases he : natToStr i.toNat with _ | ⟨c, rest⟩
    · exact absurd he (natToStr_ne_nil _)
    · have hb := natToStr_toNat_bounds i.toNat c
        (by rw [he]; exact List.mem_cons_self c rest)
      rw [List.cons_append]
      simp only [jNum]
      rw [if_neg (by
        intro hcm
        rw [hcm] at hb
        revert hb
        decide)]
      rw [← List.cons_append, ← he, jNumNat_natToStr _ _ htail]
      simp only [Option.some.injEq, Prod.mk.injEq]
      constructor
      · omega
      · trivial

end Vpn

namespace Vpn

theorem hasPfx_word_ne (p c : Char) (ps cs : Str) (h : ¬(p = c)) :
    hasPfx (p :: ps) (c :: cs) = false := by
  simp [hasPfx, h]

theorem hasPfx_true_head (c : Char) (cs : Str) (h : ¬('t' = c)) :
    hasPfx "true".toList (c :: cs) = false := by
  rw [show ("true".toList : Str) = 't' :: ['r', 'u', 'e'] from rfl]
  exact hasPfx_word_ne _ _ _ _ h

theorem hasPfx_false_head (c : Char) (cs : Str) (h : ¬('f' = c)) :
    hasPfx "false".toList (c :: cs) = false := by
  rw [show ("false".toList : Str) = 'f' :: ['a', 'l', 's', 'e'] from rfl]
  exact hasPfx_word_ne _ _ _ _ h

theorem hasPfx_null_head (c : Char) (cs : Str) (h : ¬('n' = c)) :
    hasPfx "null".toList (c :: cs) = false := by
  rw [show ("null".toList : Str) = 'n' :: ['u', 'l', 'l'] from rfl]
  exact hasPfx_word_ne _ _ _ _ h

theorem intToStr_head (i : ℤ) : ∃ c rest, intToStr i = c :: rest ∧
    (c = '-' ∨ (48 ≤ c.toNat ∧ c.toNat ≤ 57)) := by
  unfold intToStr
  split
  · exact ⟨'-', _, rfl, Or.inl rfl⟩
  · rcases he : natToStr i.toNat with _ | ⟨c, rest⟩
    · exact absurd he (natToStr_ne_nil _)
    · exact ⟨c, rest, rfl, Or.inr (natToStr_toNat_bounds _ c
        (by rw [he]; exact List.mem_cons_self c rest))⟩

theorem jValue_dump (v : PyVal) (tail : Str)
    (htail : (tail.headD ' ').isDigit = false) :
    jValue (jsonDumpVal v ++ tail) = some (v, tail) := by
  cases v with
  | str s =>
      have hre : jsonDumpVal (.str s) ++ tail =
          '"' :: (jsonEscape s ++ '"' :: tail) := by
        simp [jsonDumpVal, List.append_assoc]
      rw [hre]
      simp only [jValue]
      rw [if_pos (by trivial), jStr_escape]
      rfl
  | int n =>
      obtain ⟨c, rest, he, hc⟩ := intToStr_head n
      have hdump : jsonDumpVal (.int n) ++ tail = c :: (rest ++ tail) := by
        rw [show jsonDumpVal (.int n) = intToStr n from rfl, he,
          List.cons_append]
      rw [hdump]
      have hctoNat : c.toNat = 45 ∨ (48 ≤ c.toNat ∧ c.toNat ≤ 57) := by
        rcases hc with h | h
        · left; rw [h]; rfl
        · right; exact h
      have hT : ¬('t' = c) := by
        intro h; rw [← h] at hctoNat; revert hctoNat; decide
      have hF : ¬('f' = c) := by
        intro h; rw [← h] at hctoNat; revert hctoNat; decide
      have hN : ¬('n' = c) := by
        intro h; rw [← h] at hctoNat; revert hctoNat; decide
      have hQ : ¬(c = '"') := by
        intro h; rw [h] at hctoNat; revert hctoNat; decide
      simp only [jValue]
      rw [if_neg hQ,
        if_neg (show ¬(hasPfx "true".toList (c :: (rest ++ tail)) = true) by
          simp [hasPfx_word_ne, hT]),
        if_neg (show ¬(hasPfx "false".toList (c :: (rest ++ tail)) = true) by
          simp [hasPfx_word_ne, hF]),
        if_neg (show ¬(hasPfx "null".toList (c :: (rest ++ tail)) = true) by
          simp [hasPfx_word_ne, hN]),
        ← List.cons_append, ← he, jNum_intToStr n tail htail]
  | bool b =>
      cases b with
      | true =>
          show jValue ('t' :: 'r' :: 'u' :: 'e' :: tail) =
            some (.bool true, tail)
          simp only [jValue]
          rw [if_neg (show ¬(('t' : Char) = '"') by decide),
            if_pos (show hasPfx "true".toList
              ('t' :: 'r' :: 'u' :: 'e' :: tail) = true from rfl)]
          rfl
      | false =>
          show jValue ('f' :: 'a' :: 'l' :: 's' :: 'e' :: tail) =
            some (.bool false, tail)
          simp only [jValue]
          rw [if_neg (show ¬(('f' : Char) = '"') by decide),
            if_neg (show ¬(hasPfx "true".toList
              ('f' :: 'a' :: 'l' :: 's' :: 'e' :: tail) = true) from
              fun h => Bool.noConfusion h),
            if_pos (show hasPfx "false".toList
              ('f' :: 'a' :: 'l' :: 's' :: 'e' :: tail) = true from rfl)]
          rfl
  | none =>
      show jValue ('n' :: 'u' :: 'l' :: 'l' :: tail) = some (.none, tail)
      simp only [jValue]
      rw [if_neg (show ¬(('n' : Char) = '"') by decide),
        if_neg (show ¬(hasPfx "true".toList
          ('n' :: 'u' :: 'l' :: 'l' :: tail) = true) from
          fun h => Bool.noConfusion h),
        if_neg (show ¬(hasPfx "false".toList
          ('n' :: 'u' :: 'l' :: 'l' :: tail) = true) from
          fun h => Bool.noConfusion h),
        if_pos (show hasPfx "null".toList
          ('n' :: 'u' :: 'l' :: 'l' :: tail) = true from rfl)]
      rfl

end Vpn

namespace Vpn

theorem dropWhile_ws_cons (c : Char) (cs : Str) (h : isJsonWs c = false) :
    (c :: cs).dropWhile isJsonWs = c :: cs := by
  simp [List.dropWhile_cons, h]

theorem isJsonWs_toNat (c : Char) (h : 33 ≤ c.toNat) : isJsonWs c = false := by
  unfold isJsonWs
  have h32 : ¬(c = ' ') := by intro he; rw [he] at h; revert h; decide
  have h9 : ¬(c = Char.ofNat 9) := by intro he; rw [he] at h; revert h; decide
  have h10 : ¬(c = Char.ofNat 10) := by intro he; rw [he] at h; revert h; decide
  have h13 : ¬(c = Char.ofNat 13) := by intro he; rw [he] at h; revert h; decide
  simp [h32, h9, h10, h13]

theorem jDump_cons (v : PyVal) : ∃ c cs, jsonDumpVal v = c :: cs ∧
    isJsonWs c = false := by
  cases v with
  | str s => exact ⟨'"', _, rfl, by decide⟩
  | int n =>
      obtain ⟨c, cs, he, hc⟩ := intToStr_head n
      refine ⟨c, cs, he, isJsonWs_toNat c ?_⟩
      rcases hc with h | h
      · rw [h]; decide
      · omega
  | bool b =>
      cases b with
      | true => exact ⟨'t', _, rfl, by decide⟩
      | false => exact ⟨'f', _, rfl, by decide⟩
  | none => exact ⟨'n', _, rfl, by decide⟩

theorem dropWhile_ws_dump (v : PyVal) (X : Str) :
    (jsonDumpVal v ++ X).dropWhile isJsonWs = jsonDumpVal v ++ X := by
  obtain ⟨c, cs, he, hc⟩ := jDump_cons v
  rw [he, List.cons_append, dropWhile_ws_cons _ _ hc]

theorem jValue_dump_brace (v : PyVal) (rest : Str) :
    jValue (jsonDumpVal v ++ '}' :: rest) = some (v, '}' :: rest) :=
  jValue_dump v _ rfl

theorem jValue_dump_comma (v : PyVal) (t : Str) :
    jValue (jsonDumpVal v ++ ',' :: t) = some (v, ',' :: t) :=
  jValue_dump v _ rfl

theorem dropWhile_ws_quote (cs : Str) :
    ('"' :: cs).dropWhile isJsonWs = '"' :: cs := rfl

theorem dropWhile_ws_colon (cs : Str) :
    (':' :: cs).dropWhile isJsonWs = ':' :: cs := rfl

theorem dropWhile_ws_comma (cs : Str) :
    (',' :: cs).dropWhile isJsonWs = ',' :: cs := rfl

theorem dropWhile_ws_rbrace (cs : Str) :
    ('}' :: cs).dropWhile isJsonWs = '}' :: cs := rfl

theorem dropWhile_ws_space (cs : Str) :
    (' ' :: cs).dropWhile isJsonWs = cs.dropWhile isJsonWs := rfl

theorem jMembers_skip_ws (f : ℕ) (aE : Bool) (c : Char) (s : Str) (acc : Bag)
    (hc : isJsonWs c = true) :
    jMembers (f + 1) aE (c :: s) acc = jMembers (f + 1) aE s acc := by
  simp only [jMembers]
  rw [List.dropWhile_cons, if_pos hc]

theorem jMembers_dumps (obj : Bag) : ∀ (fuel : ℕ) (aE : Bool) (acc : Bag)
    (rest : Str),
    (jsonMembersStr obj).length + 1 ≤ fuel →
    (obj = [] → aE = true) →
    jMembers fuel aE (jsonMembersStr obj ++ '}' :: rest) acc =
      some (obj.foldl (fun b kv => Bag.set b kv.1 kv.2) acc, rest) := by
  induction obj with
  | nil =>
      intro fuel aE acc rest hf hA
      cases fuel with
      | zero => omega
      | succ f =>
          rw [hA rfl]
          show jMembers (f + 1) true ('}' :: rest) acc = some (acc, rest)
          simp only [jMembers, dropWhile_ws_rbrace]
          rfl
  | cons kv tl ih =>
      intro fuel aE acc rest hf hA
      cases fuel with
      | zero => omega
      | succ f =>
          cases tl with
          | nil =>
              have hs : jsonMembersStr [kv] ++ '}' :: rest =
                  '"' :: (jsonEscape kv.1 ++ '"' :: ':' :: ' ' ::
                    (jsonDumpVal kv.2 ++ '}' :: rest)) := by
                simp [jsonMembersStr, List.append_assoc]
              rw [hs]
              simp only [jMembers, dropWhile_ws_quote, jStr_escape,
                dropWhile_ws_colon, dropWhile_ws_space, dropWhile_ws_dump,
                jValue_dump_brace, dropWhile_ws_rbrace]
              rw [if_pos (show True from trivial),
                if_pos (show True from trivial),
                if_neg (show ¬(('}' : Char) = ',') by decide),
                if_pos (show True from trivial)]
              rfl
          | cons kv2 tl2 =>
              have hs : jsonMembersStr (kv :: kv2 :: tl2) ++ '}' :: rest =
                  '"' :: (jsonEscape kv.1 ++ '"' :: ':' :: ' ' ::
                    (jsonDumpVal kv.2 ++ ',' :: ' ' ::
                      (jsonMembersStr (kv2 :: tl2) ++ '}' :: rest))) := by
                simp [jsonMembersStr, List.append_assoc]
              rw [hs]
              simp only [jMembers, dropWhile_ws_quote, jStr_escape,
                dropWhile_ws_colon, dropWhile_ws_space, dropWhile_ws_dump,
                jValue_dump_comma, dropWhile_ws_comma]
              rw [if_pos (show True from trivial),
                if_pos (show True from trivial),
                if_pos (show True from trivial)]
              have hflen : (jsonMembersStr (kv2 :: tl2)).length + 1 ≤ f := by
                have hlen := congrArg List.length hs
                simp [List.length_append] at hlen
                omega
              obtain ⟨f2, rfl⟩ : ∃ f2, f = f2 + 1 := ⟨f - 1, by omega⟩
              rw [jMembers_skip_ws _ _ _ _ _ (by decide)]
              rw [ih (f2 + 1) false (Bag.set acc kv.1 kv.2) rest hflen
                (by intro h; exact absurd h (by simp))]
              rfl

end Vpn

namespace Vpn

theorem foldl_bagSet_append : ∀ (obj acc : Bag),
    ((acc ++ obj).map Prod.fst).Nodup →
    obj.foldl (fun b kv => Bag.set b kv.1 kv.2) acc = acc ++ obj := by
  intro obj
  induction obj with
  | nil => intro acc h; simp
  | cons kv tl ih =>
      intro acc h
      have hd : ∀ x ∈ acc, ¬(x.1 = kv.1) := by
        intro x hx hxe
        have h1 : kv.1 ∈ acc.map Prod.fst := by
          rw [← hxe]; exact List.mem_map_of_mem _ hx
        have h2 : kv.1 ∈ (kv :: tl).map Prod.fst := by simp
        rw [List.map_append, List.nodup_append] at h
        exact h.2.2 h1 h2
      have hfresh : acc.find? (fun p => p.1 = kv.1) = Option.none := by
        rw [List.find?_eq_none]
        intro x hx
        simpa using hd x hx
      have hset : Bag.set acc kv.1 kv.2 = acc ++ [kv] := by
        simp [Bag.set, hfresh]
      rw [List.foldl_cons]
      show List.foldl _ (Bag.set acc kv.1 kv.2) tl = _
      rw [hset, ih (acc ++ [kv])
        (by rwa [List.append_assoc, List.singleton_append]),
        List.append_assoc, List.singleton_append]

theorem jsonLoads_dumps (obj : Bag) (h : (obj.map Prod.fst).Nodup) :
    jsonLoads (jsonDumps obj) = some obj := by
  unfold jsonLoads jsonDumps
  rw [List.cons_append]
  rw [show ('{' :: (jsonMembersStr obj ++ ['}'])).dropWhile isJsonWs =
      '{' :: (jsonMembersStr obj ++ ['}']) from rfl]
  show (match jMembers ((jsonMembersStr obj ++ ['}']).length + 1) true
      (jsonMembersStr obj ++ ['}']) [] with
    | some (o, rest2) =>
        if (rest2.dropWhile isJsonWs).isEmpty then some o else Option.none
    | Option.none => Option.none) = some obj
  rw [show (jsonMembersStr obj ++ ['}'] : Str) =
      jsonMembersStr obj ++ '}' :: [] from rfl,
    jMembers_dumps obj _ true [] []
      (by simp [List.length_append]) (fun _ => rfl)]
  rw [foldl_bagSet_append obj [] (by simpa using h)]
  rfl

end Vpn

namespace Vpn

/-! ## The parser itself (`scripts/parser.py`, `ConfigParser`) -/

/-- `int(x)` applied to a scalar (`int(config.get("port", 0))`):
ints pass through, strings go through the `int()` grammar, bools are
0/1, `None` raises. -/
def pyIntOf : PyVal → Option ℤ
  | .int n => some n
  | .str s => pyIntParse s
  | .bool b => some (if b then 1 else 0)
  | .none => Option.none

/-- `f"{v}"` for a scalar value (`str()` conversion). -/
def pyValStr : PyVal → Str
  | .str s => s
  | .int n => intToStr n
  | .bool b => if b then "True".toList else "False".toList
  | .none => "None".toList

/-- `f"{o}"` for an `Optional[str]` field (`None` prints as `"None"`). -/
def optStr (o : Option Str) : Str := o.getD "None".toList

/-- The deterministic core of `re.match(r"vless://([^@]+)@([^:]+):(\d+)(.*)")`
after the literal prefix: credential up to the first `@` (non-empty), host
up to the next `:` (non-empty), a maximal non-empty digit run, and the
remainder (the model reads `\d` as ASCII digits and lets `(.*)` span the
whole tail — descriptors with interior newlines are outside the model). -/
def vlessCore (s : Str) : Option (Str × Str × ℕ × Str) :=
  match splitFirst '@' s with
  | Option.none => Option.none
  | some (uuid, rest1) =>
      if uuid.isEmpty then Option.none
      else match splitFirst ':' rest1 with
        | Option.none => Option.none
        | some (host, rest2) =>
            if host.isEmpty then Option.none
            else
              let digits := rest2.takeWhile Char.isDigit
              if digits.isEmpty then Option.none
              else some (uuid, host, digitsToNat digits,
                rest2.drop digits.length)

/-- The shared `rsplit("#", 1)` + `unquote(remark.strip())` prelude of
`parse_vless` and `parse_ss`. -/
def hashSplit (uri : Str) : Str × Str :=
  match splitLast '#' uri with
  | some (a, b) => (a, unquote (pyStrip b))
  | Option.none => (uri, [])

/-- `ConfigParser.parse_vless`. -/
def parseVless (uri : Str) : Option VPNNode :=
  let pr : Str × Str := hashSplit uri
  if hasPfx "vless://".toList pr.1 then
    match vlessCore (pr.1.drop 8) with
    | some (uuid, host, port, query) =>
        let params : List (Str × Str) :=
          if hasPfx "?".toList query then qsParams (query.drop 1) else []
        some { protocol := "vless".toList, host := host, port := (port : ℤ),
               uuid := some uuid, password := Option.none, remark := pr.2,
               tls := decide ((params.find? (fun kv =>
                 kv.1 = "security".toList)).map (·.2) = some "tls".toList),
               sni := (params.find? (fun kv =>
                 kv.1 = "sni".toList)).map (·.2),
               extra := params.map (fun kv => (kv.1, PyVal.str kv.2)) }
    | Option.none => Option.none
  else Option.none

/-- `ConfigParser.parse_vmess` (model restrictions: the JSON layer is the
flat scalar model of `jsonLoads`, and a present `add`/`id`/`ps` must be a
string and a present `sni` a string — other shapes return `none` where
CPython would propagate non-string attribute values). -/
def parseVmess (uri : Str) : Option VPNNode :=
  if hasPfx "vmess://".toList uri then
    match (b64Decode (uri.drop 8)).bind utf8Decode with
    | Option.none => Option.none
    | some json_str =>
        match jsonLoads json_str with
        | Option.none => Option.none
        | some config =>
            match (config.get "add".toList).getD (.str []),
                (config.get "id".toList).getD (.str []),
                (config.get "ps".toList).getD (.str []) with
            | .str host, .str uuid, .str remark =>
                (match pyIntOf ((config.get "port".toList).getD (.int 0)) with
                 | Option.none => Option.none
                 | some port =>
                     match (config.get "sni".toList).map
                         (fun v => match v with
                           | .str s => some s
                           | _ => Option.none) with
                     | some Option.none => Option.none
                     | sni =>
                         some { protocol := "vmess".toList,
                                host := host,
                                port := port, uuid := some uuid,
                                password := Option.none, remark := remark,
                                tls := decide (config.get "tls".toList =
                                  some (.str "tls".toList)),
                                sni := sni.bind id, extra := config })
            | _, _, _ => Option.none
  else Option.none

/-- `ConfigParser.parse_ss`. -/
def parseSS (uri : Str) : Option VPNNode :=
  if hasPfx "ss://".toList uri then
    let pr : Str × Str := hashSplit uri
    let core := pr.1.drop 5
    match splitFirst '@' core with
    | Option.none => Option.none
    | some (cred, addr) =>
        let mp : Str × Str :=
          match (b64Decode cred).bind utf8Decode with
          | some decoded =>
              (match splitFirst ':' decoded with
               | some (m, p) => (m, p)
               | Option.none =>
                   match splitFirst ':' cred with
                   | some (m, p) => (m, p)
                   | Option.none => (cred, []))
          | Option.none =>
              (match splitFirst ':' cred with
               | some (m, p) => (m, p)
               | Option.none => (cred, []))
        match splitFirst ':' addr with
        | Option.none => Option.none
        | some (host, portStr) =>
            match pyIntParse portStr with
            | Option.none => Option.none
            | some port =>
                some { protocol := "ss".toList,
                       host := host, port := port,
                       uuid := Option.none, password := some mp.2,
                       remark := pr.2,
                       tls := false, sni := Option.none,
                       extra := [("method".toList, PyVal.str mp.1)] }
  else Option.none

/-- `ConfigParser.parse`: strip, then dispatch on the scheme prefix. -/
def parse (uri : Str) : Option VPNNode :=
  let u := pyStrip uri
  if hasPfx "vless://".toList u then parseVless u
  else if hasPfx "vmess://".toList u then parseVmess u
  else if hasPfx "ss://".toList u then parseSS u
  else Option.none

/-- `"&".join(...)`. -/
def joinAmp : List Str → Str
  | [] => []
  | [x] => x
  | x :: xs => x ++ '&' :: joinAmp xs

/-- `ConfigParser.rebuild_uri`. -/
def rebuildUri (node : VPNNode) (newRemark : Option Str) : Str :=
  let remark := newRemark.getD node.remark
  if node.protocol = "vless".toList then
    let params := joinAmp ((node.extra.filter
      (fun kv => !(kv.1 = "uuid".toList))).map
        (fun kv => kv.1 ++ '=' :: pyValStr kv.2))
    "vless://".toList ++ optStr node.uuid ++ '@' :: node.host ++
      ':' :: intToStr node.port ++
      (if params.isEmpty then [] else '?' :: params) ++
      (if remark.isEmpty then [] else '#' :: remark)
  else if node.protocol = "vmess".toList then
    let config := Bag.set (Bag.set (Bag.set (Bag.set node.extra
      "add".toList (.str node.host))
      "port".toList (.str (intToStr node.port)))
      "id".toList (match node.uuid with
        | some s => .str s
        | Option.none => .none))
      "ps".toList (.str remark)
    "vmess://".toList ++ b64Encode (utf8Encode (jsonDumps config))
  else if node.protocol = "ss".toList then
    let method := pyValStr ((Bag.get node.extra "method".toList).getD
      (.str "aes-256-gcm".toList))
    let cred := method ++ ':' :: optStr node.password
    "ss://".toList ++ b64Encode (utf8Encode cred) ++ '@' :: node.host ++
      ':' :: intToStr node.port ++
      (if remark.isEmpty then [] else '#' :: remark)
  else []

end Vpn

namespace Vpn

theorem splitFirst_eq_none (sep : Char) : ∀ (s : Str),
    (∀ c ∈ s, ¬(c = sep)) → splitFirst sep s = Option.none := by
  intro s
  induction s with
  | nil => intro _; rfl
  | cons c cs ih =>
      intro h
      simp only [splitFirst]
      rw [if_neg (h c (List.mem_cons_self c cs)),
        ih (fun x hx => h x (List.mem_cons_of_mem _ hx))]
      rfl

theorem splitLast_eq_none (sep : Char) (s : Str)
    (h : ∀ c ∈ s, ¬(c = sep)) : splitLast sep s = Option.none := by
  unfold splitLast
  rw [splitFirst_eq_none sep _ (fun c hc => h c (List.mem_reverse.1 hc))]
  rfl

theorem hashSplit_no_hash (uri : Str) (h : ∀ c ∈ uri, ¬(c = '#')) :
    hashSplit uri = (uri, []) := by
  unfold hashSplit
  rw [splitLast_eq_none '#' uri h]

theorem optTotal {α : Type} (o : Option α) :
    (∃ x, o = some x) ∨ o = Option.none := by
  cases o with
  | none => exact Or.inr rfl
  | some x => exact Or.inl ⟨x, rfl⟩

/-- C9: the embedded parser is a total function: on every input string it
returns either a parsed node or the explicit reject `none` — every CPython
failure path (`try/except` around the b64/UTF-8/JSON/int conversions, the
explicit `return None` branches) appears in the embedding as an explicit
`none` result, never as a stuck or partial computation; the same holds for
each of the three per-format parsers. -/
theorem parse_total_function (s : Str) :
    ((∃ n, parse s = some n) ∨ parse s = Option.none) ∧
    ((∃ n, parseVless s = some n) ∨ parseVless s = Option.none) ∧
    ((∃ n, parseVmess s = some n) ∨ parseVmess s = Option.none) ∧
    ((∃ n, parseSS s = some n) ∨ parseSS s = Option.none) :=
  ⟨optTotal _, optTotal _, optTotal _, optTotal _⟩

end Vpn

namespace Vpn

theorem vlessCore_port (p : ℕ) :
    vlessCore ("u@h:".toList ++ natToStr p) =
      some ("u".toList, "h".toList, p, []) := by
  have hdig := natToStr_digits p
  have htw : (natToStr p).takeWhile Char.isDigit = natToStr p := by
    conv_lhs => rw [← List.append_nil (natToStr p)]
    exact takeWhile_append_all _ _ _ hdig (Or.inl rfl)
  have hne : (natToStr p).isEmpty = false := by
    rcases he : natToStr p with _ | ⟨c, r⟩
    · exact absurd he (natToStr_ne_nil p)
    · rfl
  have hs1 : splitFirst '@' ('u' :: '@' :: ('h' :: ':' :: natToStr p)) =
      some (['u'], 'h' :: ':' :: natToStr p) := rfl
  have hs2 : splitFirst ':' ('h' :: ':' :: natToStr p) =
      some (['h'], natToStr p) := rfl
  show vlessCore ('u' :: '@' :: ('h' :: ':' :: natToStr p)) = _
  simp only [vlessCore, hs1, hs2]
  rw [if_neg (show ¬((['u'] : Str).isEmpty = true) by simp),
    if_neg (show ¬((['h'] : Str).isEmpty = true) by simp)]
  rw [htw]
  rw [if_neg (show ¬((natToStr p).isEmpty = true) by rw [hne]; simp)]
  rw [digitsToNat_natToStr, List.drop_length]
  rfl

/-- C8 counterexample: `parse` accepts a vless descriptor with port 0 —
the parser performs no range validation on the port. -/
theorem parse_accepts_port_zero :
    ∃ n, parse "vless://u@h:0".toList = some n ∧ n.port = 0 :=
  ⟨_, rfl, rfl⟩

/-- C8 (amended): the parser applies `int()` to the digit run with no
range check at all — for every natural number `p` (including 0 and values
above 65535) the descriptor `vless://u@h:<p>` parses successfully to a
node whose port is exactly `p`. -/
theorem parse_no_port_range_check (p : ℕ) :
    parse ("vless://u@h:".toList ++ natToStr p) =
      some { protocol := "vless".toList, host := "h".toList, port := (p : ℤ),
             uuid := some "u".toList, password := Option.none, remark := [],
             tls := false, sni := Option.none, extra := [] } := by
  have hb := natToStr_toNat_bounds p
  have hdig := natToStr_digits p
  have hchars : ∀ c ∈ ("vless://u@h:".toList ++ natToStr p),
      isPySpace c = false := by
    intro c hc
    rcases List.mem_append.1 hc with h | h
    · exact (by decide : ∀ c ∈ "vless://u@h:".toList, isPySpace c = false) c h
    · exact digit_not_space c (hdig c h)
  have hnohash : ∀ c ∈ ("vless://u@h:".toList ++ natToStr p), ¬(c = '#') := by
    intro c hc he
    subst he
    rcases List.mem_append.1 hc with h | h
    · exact absurd h (by decide)
    · have h48 := (hb _ h).1
      revert h48
      decide
  have hsplit : hashSplit ("vless://u@h:".toList ++ natToStr p) =
      ("vless://u@h:".toList ++ natToStr p, []) :=
    hashSplit_no_hash _ hnohash
  have hdrop : ("vless://u@h:".toList ++ natToStr p).drop 8 =
      "u@h:".toList ++ natToStr p := rfl
  simp only [parse]
  rw [pyStrip_of_no_space _ hchars]
  rw [if_pos (show hasPfx "vless://".toList
    ("vless://u@h:".toList ++ natToStr p) = true from rfl)]
  simp only [parseVless, hsplit]
  rw [if_pos (show hasPfx "vless://".toList
    ("vless://u@h:".toList ++ natToStr p) = true from rfl)]
  rw [hdrop, vlessCore_port]
  rfl

end Vpn

namespace Vpn

/-- C2 counterexample: the descriptor `vless://u#v@h:1#` parses (the
`rsplit("#", 1)` takes the last `#`, leaving the first inside the
credential and an empty remark), but rebuilding drops the trailing `#`
(empty remark appends nothing) and the rebuilt descriptor re-parses as
`None` — the first `#` now ends up as the remark separator and the regex
no longer finds an `@`.  The accepted line does not round-trip. -/
def c2node : VPNNode :=
  { protocol := "vless".toList, host := "h".toList, port := 1,
    uuid := some "u#v".toList, password := Option.none, remark := [],
    tls := false, sni := Option.none, extra := [] }

theorem vless_roundtrip_fails :
    parse "vless://u#v@h:1#".toList = some c2node ∧
    parse (rebuildUri c2node Option.none) = Option.none :=
  ⟨rfl, rfl⟩

theorem hasPfx_append_self : ∀ (p t : Str), hasPfx p (p ++ t) = true := by
  intro p t
  induction p with
  | nil => rfl
  | cons c cs ih => simp [hasPfx, ih]

theorem splitFirst_append_sep (sep : Char) : ∀ (x y : Str),
    (∀ c ∈ x, ¬(c = sep)) →
    splitFirst sep (x ++ sep :: y) = some (x, y) := by
  intro x y
  induction x with
  | nil => intro _; simp [splitFirst]
  | cons c cs ih =>
      intro h
      simp only [List.cons_append, splitFirst, List.append_eq]
      rw [if_neg (h c (List.mem_cons_self c cs)),
        ih (fun a ha => h a (List.mem_cons_of_mem _ ha))]
      rfl

theorem splitLast_last_sep (sep : Char) (a b : Str)
    (hb : ∀ c ∈ b, ¬(c = sep)) :
    splitLast sep (a ++ sep :: b) = some (a, b) := by
  unfold splitLast
  have hrev : (a ++ sep :: b).reverse = b.reverse ++ sep :: a.reverse := by
    rw [List.reverse_append, List.reverse_cons, List.append_assoc,
      List.singleton_append]
  rw [hrev, splitFirst_append_sep sep _ _
    (fun c hc => hb c (List.mem_reverse.1 hc))]
  simp

theorem splitAll_no_sep (sep : Char) : ∀ (x : Str),
    (∀ c ∈ x, ¬(c = sep)) → splitAll sep x = [x] := by
  intro x
  induction x with
  | nil => intro _; rfl
  | cons c cs ih =>
      intro h
      simp only [splitAll]
      rw [if_neg (h c (List.mem_cons_self c cs)),
        ih (fun a ha => h a (List.mem_cons_of_mem _ ha))]

theorem splitAll_append_sep (sep : Char) : ∀ (x t : Str),
    (∀ c ∈ x, ¬(c = sep)) →
    splitAll sep (x ++ sep :: t) = x :: splitAll sep t := by
  intro x t
  induction x with
  | nil => intro _; simp [splitAll]
  | cons c cs ih =>
      intro h
      simp only [List.cons_append, splitAll, List.append_eq]
      rw [if_neg (h c (List.mem_cons_self c cs)),
        ih (fun a ha => h a (List.mem_cons_of_mem _ ha))]

theorem qsFirstGo_of_nodup : ∀ (ps : List (Str × Str)) (seen : List Str),
    (∀ kv ∈ ps, kv.1 ∉ seen) → (ps.map Prod.fst).Nodup →
    qsFirstGo seen ps = ps := by
  intro ps
  induction ps with
  | nil => intro _ _ _; rfl
  | cons kv rest ih =>
      intro seen h1 h2
      simp only [qsFirstGo]
      rw [if_neg (h1 kv (List.mem_cons_self kv rest))]
      rw [ih (kv.1 :: seen) ?_ (List.nodup_cons.1 (by simpa using h2)).2]
      intro kv2 hkv2
      simp only [List.mem_cons, not_or]
      constructor
      · intro he
        have : kv.1 ∈ rest.map Prod.fst := by
          rw [← he]; exact List.mem_map_of_mem _ hkv2
        exact (List.nodup_cons.1 (by simpa using h2)).1 this
      · exact h1 kv2 (List.mem_cons_of_mem _ hkv2)

end Vpn

namespace Vpn

theorem qsPairs_join (ps : List (Str × Str))
    (hps : ∀ kv ∈ ps, kv.2 ≠ [] ∧
      (∀ c ∈ kv.1, ¬(c = '&') ∧ ¬(c = '=') ∧ ¬(c = '%') ∧ ¬(c = '+')) ∧
      (∀ c ∈ kv.2, ¬(c = '&') ∧ ¬(c = '%') ∧ ¬(c = '+'))) :
    qsPairs (joinAmp (ps.map (fun kv => kv.1 ++ '=' :: kv.2))) = ps := by
  induction ps with
  | nil => rfl
  | cons kv rest ih =>
      obtain ⟨hv, hkc, hvc⟩ := hps kv (List.mem_cons_self kv rest)
      have hce : ∀ c ∈ (kv.1 ++ '=' :: kv.2), ¬(c = '&') := by
        intro c hc
        rcases List.mem_append.1 hc with h | h
        · exact (hkc c h).1
        · rcases List.mem_cons.1 h with rfl | h
          · decide
          · exact (hvc c h).1
      have hvem : kv.2.isEmpty = false := by
        rcases he : kv.2 with _ | ⟨c, r⟩
        · exact absurd he hv
        · rfl
      have huk : unquotePlus kv.1 = kv.1 :=
        unquotePlus_clean _ (fun c hc => ⟨(hkc c hc).2.2.1, (hkc c hc).2.2.2⟩)
      have huv : unquotePlus kv.2 = kv.2 :=
        unquotePlus_clean _ (fun c hc => ⟨(hvc c hc).2.1, (hvc c hc).2.2⟩)
      cases rest with
      | nil =>
          show qsPairs (kv.1 ++ '=' :: kv.2) = [kv]
          unfold qsPairs
          rw [splitAll_no_sep '&' _ hce]
          simp only [List.filterMap_cons,
            splitFirst_append_sep '=' _ _ (fun c hc => (hkc c hc).2.1),
            hvem, huk, huv]
          rfl
      | cons kv2 rest2 =>
          show qsPairs ((kv.1 ++ '=' :: kv.2) ++ '&' ::
            joinAmp ((kv2 :: rest2).map (fun kv => kv.1 ++ '=' :: kv.2))) =
            kv :: kv2 :: rest2
          unfold qsPairs
          rw [splitAll_append_sep '&' _ _ hce]
          simp only [List.filterMap_cons,
            splitFirst_append_sep '=' _ _ (fun c hc => (hkc c hc).2.1),
            hvem, huk, huv]
          show kv :: qsPairs (joinAmp ((kv2 :: rest2).map
            (fun kv => kv.1 ++ '=' :: kv.2))) = kv :: kv2 :: rest2
          rw [ih (fun kv2 h2 => hps kv2 (List.mem_cons_of_mem _ h2))]

theorem isPySpace_toNat (c : Char) (h1 : 33 ≤ c.toNat)
    (h2 : c.toNat ≤ 127) : isPySpace c = false := by
  unfold isPySpace
  simp only [Bool.or_eq_false_iff, Bool.and_eq_false_iff,
    decide_eq_false_iff_not]
  omega

theorem b64Encode_char_facts (bs : List ℕ) (h : ∀ x ∈ bs, x < 256) :
    ∀ c ∈ b64Encode bs, ¬(c = '@') ∧ ¬(c = ':') ∧ ¬(c = '#') ∧
      isPySpace c = false := by
  obtain ⟨data, pad, henc, hdata, hpad, _, _, _⟩ := b64_enc_structure bs h
  intro c hc
  simp only [b64Encode] at hc
  rw [henc] at hc
  rcases List.mem_append.1 hc with hd | hp
  · obtain ⟨i, hi, rfl⟩ := hdata c hd
    exact (by decide : ∀ i < 64, ¬(b64Char i = '@') ∧ ¬(b64Char i = ':') ∧
      ¬(b64Char i = '#') ∧ isPySpace (b64Char i) = false) i hi
  · rw [hpad c hp]
    refine ⟨by decide, by decide, by decide, by decide⟩

theorem bagFindMap (k : Str) (v : PyVal) : ∀ (b : Bag),
    (b.find? (fun kv => kv.1 = k)).isSome = true →
    ((b.map (fun kv => if kv.1 = k then (kv.1, v) else kv)).find?
      (fun kv => kv.1 = k)) = some (k, v) := by
  intro b
  induction b with
  | nil => intro h; simp [List.find?] at h
  | cons x xs ih =>
      intro h
      by_cases hx : x.1 = k
      · simp only [List.map_cons]
        rw [show (if x.1 = k then (x.1, v) else x) = (x.1, v) from if_pos hx]
        rw [List.find?_cons_of_pos _ (by simp [hx])]
        rw [hx]
      · simp only [List.map_cons]
        rw [show (if x.1 = k then (x.1, v) else x) = x from if_neg hx]
        rw [List.find?_cons_of_neg _ (by simp [hx])]
        apply ih
        rwa [List.find?_cons_of_neg _ (by simp [hx])] at h

theorem bag_get_set_same (b : Bag) (k : Str) (v : PyVal) :
    Bag.get (Bag.set b k v) k = some v := by
  unfold Bag.set
  by_cases hsome : (b.find? (fun kv => kv.1 = k)).isSome
  · rw [if_pos hsome]
    unfold Bag.get
    rw [bagFindMap k v b hsome]
    rfl
  · rw [if_neg hsome]
    unfold Bag.get
    rw [List.find?_append, Option.not_isSome_iff_eq_none.1 hsome]
    simp [List.find?]

theorem bagSet_keys_nodup (b : Bag) (k : Str) (v : PyVal)
    (h : (b.map Prod.fst).Nodup) :
    ((Bag.set b k v).map Prod.fst).Nodup := by
  unfold Bag.set
  split
  · have hmm : ((b.map (fun kv => if kv.1 = k then (kv.1, v) else kv)).map
        Prod.fst) = b.map Prod.fst := by
      rw [List.map_map]
      apply List.map_congr_left
      intro kv _
      by_cases hx : kv.1 = k
      · simp [hx]
      · simp [hx]
    rw [hmm]
    exact h
  · rename_i hnone
    rw [List.map_append, List.nodup_append]
    refine ⟨h, by simp, ?_⟩
    intro a ha hb
    simp only [List.map_cons, List.map_nil, List.mem_singleton] at hb
    rw [hb] at ha
    obtain ⟨x, hx, hxk⟩ := List.mem_map.1 ha
    have hfn : b.find? (fun kv => kv.1 = k) = Option.none := by
      rcases hf : b.find? (fun kv => kv.1 = k) with _ | val
      · exact hf
      · exact absurd (by rw [hf]; rfl) hnone
    have hres := List.find?_eq_none.1 hfn x hx
    simp only [decide_eq_true_eq] at hres
    exact hres hxk

theorem bag_get_set_isSome (b : Bag) (k k2 : Str) (v : PyVal)
    (h : (Bag.get b k2).isSome = true) :
    (Bag.get (Bag.set b k v) k2).isSome = true := by
  by_cases hk : k2 = k
  · subst hk
    rw [bag_get_set_same]
    rfl
  · rw [bag_get_set_ne b k k2 v hk]
    exact h

end Vpn

namespace Vpn

theorem isEmpty_false_of_ne (s : Str) (h : s ≠ []) : s.isEmpty = false := by
  cases s with
  | nil => exact absurd rfl h
  | cons c cs => rfl

theorem mem_joinAmp : ∀ (xs : List Str) (c : Char),
    c ∈ joinAmp xs → c = '&' ∨ ∃ x ∈ xs, c ∈ x := by
  intro xs
  induction xs with
  | nil => intro c hc; simp [joinAmp] at hc
  | cons x rest ih =>
      intro c hc
      cases rest with
      | nil => exact Or.inr ⟨x, by simp, hc⟩
      | cons y r =>
          simp only [joinAmp] at hc
          rcases List.mem_append.1 hc with h | h
          · exact Or.inr ⟨x, by simp, h⟩
          · rcases List.mem_cons.1 h with rfl | h
            · exact Or.inl rfl
            · rcases ih c h with h2 | ⟨z, hz, hcz⟩
              · exact Or.inl h2
              · exact Or.inr ⟨z, List.mem_cons_of_mem _ hz, hcz⟩

theorem joinAmp_cons_ne_nil (x : Str) (xs : List Str) (hx : x ≠ []) :
    joinAmp (x :: xs) ≠ [] := by
  cases xs with
  | nil => exact hx
  | cons y r =>
      simp only [joinAmp]
      intro h
      rcases List.append_eq_nil.1 h with ⟨h1, _⟩
      exact hx h1

theorem parseVless_rebuilt (u host rem : Str) (pt : ℕ)
    (ps : List (Str × Str)) (Q R : Str)
    (hu0 : u ≠ []) (hu1 : ∀ c ∈ u, ¬(c = '@')) (hu2 : ∀ c ∈ u, ¬(c = '#'))
    (hh0 : host ≠ []) (hh1 : ∀ c ∈ host, ¬(c = ':'))
    (hh2 : ∀ c ∈ host, ¬(c = '#'))
    (hkeys : (ps.map Prod.fst).Nodup)
    (hps : ∀ kv ∈ ps, kv.2 ≠ [] ∧
      (∀ c ∈ kv.1, ¬(c = '&') ∧ ¬(c = '=') ∧ ¬(c = '%') ∧ ¬(c = '+') ∧
        ¬(c = '#')) ∧
      (∀ c ∈ kv.2, ¬(c = '&') ∧ ¬(c = '%') ∧ ¬(c = '+') ∧ ¬(c = '#')))
    (hrem : ∀ c ∈ rem, ¬(c = '#') ∧ ¬(c = '%') ∧ isPySpace c = false)
    (hQ : (ps = [] ∧ Q = []) ∨ (ps ≠ [] ∧
      Q = '?' :: joinAmp (ps.map (fun kv => kv.1 ++ '=' :: kv.2))))
    (hR : (rem = [] ∧ R = []) ∨ (rem ≠ [] ∧ R = '#' :: rem)) :
    parseVless ("vless://".toList ++
        (u ++ '@' :: (host ++ ':' :: (natToStr pt ++ (Q ++ R))))) =
      some { protocol := "vless".toList, host := host, port := (pt : ℤ),
             uuid := some u, password := Option.none, remark := rem,
             tls := decide (((ps.find? (fun kv =>
               kv.1 = "security".toList)).map (fun x => x.2)) =
                 some "tls".toList),
             sni := (ps.find? (fun kv => kv.1 = "sni".toList)).map
               (fun x => x.2),
             extra := ps.map (fun kv => (kv.1, PyVal.str kv.2)) } := by
  have hdigits := natToStr_digits pt
  have hbounds := natToStr_toNat_bounds pt
  have hQhash : ∀ c ∈ Q, ¬(c = '#') := by
    rcases hQ with ⟨_, rfl⟩ | ⟨_, rfl⟩
    · intro c hc; simp at hc
    · intro c hc he
      subst he
      rcases List.mem_cons.1 hc with h | h
      · exact absurd h (by decide)
      · rcases mem_joinAmp _ _ h with h2 | ⟨x, hx, hcx⟩
        · exact absurd h2 (by decide)
        · obtain ⟨kv, hkv, rfl⟩ := List.mem_map.1 hx
          rcases List.mem_append.1 hcx with h3 | h3
          · exact ((hps kv hkv).2.1 _ h3).2.2.2.2 rfl
          · rcases List.mem_cons.1 h3 with h4 | h4
            · exact absurd h4 (by decide)
            · exact ((hps kv hkv).2.2 _ h4).2.2.2 rfl
  have hAhash : ∀ c ∈ ("vless://".toList ++
      (u ++ '@' :: (host ++ ':' :: (natToStr pt ++ Q)))), ¬(c = '#') := by
    intro c hc
    rcases List.mem_append.1 hc with h | h
    · intro he; subst he; exact absurd h (by decide)
    · rcases List.mem_append.1 h with h | h
      · exact hu2 c h
      · rcases List.mem_cons.1 h with rfl | h
        · decide
        · rcases List.mem_append.1 h with h | h
          · exact hh2 c h
          · rcases List.mem_cons.1 h with rfl | h
            · decide
            · rcases List.mem_append.1 h with h | h
              · intro he
                subst he
                have := (hbounds _ h).1
                revert this
                decide
              · exact hQhash c h
  have hsplit : hashSplit ("vless://".toList ++
      (u ++ '@' :: (host ++ ':' :: (natToStr pt ++ (Q ++ R))))) =
      ("vless://".toList ++ (u ++ '@' :: (host ++ ':' :: (natToStr pt ++ Q))),
        rem) := by
    rcases hR with ⟨hrnil, rfl⟩ | ⟨hrne, rfl⟩
    · subst hrnil
      rw [show (Q ++ ([] : Str)) = Q from List.append_nil Q]
      exact hashSplit_no_hash _ hAhash
    · have hassoc : ("vless://".toList ++
          (u ++ '@' :: (host ++ ':' :: (natToStr pt ++ (Q ++ '#' :: rem))))) =
          ("vless://".toList ++
            (u ++ '@' :: (host ++ ':' :: (natToStr pt ++ Q)))) ++
            '#' :: rem := by
        simp [List.append_assoc]
      rw [hassoc]
      unfold hashSplit
      simp only [splitLast_last_sep '#' _ rem (fun c hc => (hrem c hc).1)]
      rw [pyStrip_of_no_space rem (fun c hc => (hrem c hc).2.2),
        unquote_no_pct rem (fun c hc => (hrem c hc).2.1)]
  have hQhead : Q = [] ∨ ∃ c cs, Q = c :: cs ∧ c.isDigit = false := by
    rcases hQ with ⟨_, rfl⟩ | ⟨_, rfl⟩
    · exact Or.inl rfl
    · exact Or.inr ⟨'?', _, rfl, by decide⟩
  have hcore : vlessCore (u ++ '@' :: (host ++ ':' :: (natToStr pt ++ Q))) =
      some (u, host, pt, Q) := by
    simp only [vlessCore, splitFirst_append_sep '@' u _ hu1]
    rw [if_neg (show ¬(u.isEmpty = true) by
      rw [isEmpty_false_of_ne u hu0]; simp)]
    simp only [splitFirst_append_sep ':' host _ hh1]
    rw [if_neg (show ¬(host.isEmpty = true) by
      rw [isEmpty_false_of_ne host hh0]; simp)]
    rw [takeWhile_append_all _ _ _ hdigits hQhead]
    rw [if_neg (show ¬((natToStr pt).isEmpty = true) by
      rw [isEmpty_false_of_ne _ (natToStr_ne_nil pt)]; simp)]
    rw [digitsToNat_natToStr, List.drop_left]
  simp only [parseVless, hsplit]
  rw [if_pos (hasPfx_append_self "vless://".toList _)]
  rw [show (("vless://".toList ++
      (u ++ '@' :: (host ++ ':' :: (natToStr pt ++ Q)))).drop 8) =
      u ++ '@' :: (host ++ ':' :: (natToStr pt ++ Q)) from rfl]
  simp only [hcore]
  rcases hQ with ⟨rfl, rfl⟩ | ⟨hpsne, rfl⟩
  · rfl
  · rw [show hasPfx "?".toList
        ('?' :: joinAmp (ps.map (fun kv => kv.1 ++ '=' :: kv.2))) = true
      from rfl]
    simp only [if_true]
    rw [show (('?' :: joinAmp (ps.map (fun kv => kv.1 ++ '=' :: kv.2))).drop 1)
        = joinAmp (ps.map (fun kv => kv.1 ++ '=' :: kv.2)) from rfl]
    unfold qsParams
    rw [qsPairs_join ps (fun kv hkv =>
      ⟨(hps kv hkv).1,
       fun c hc => ⟨((hps kv hkv).2.1 c hc).1, ((hps kv hkv).2.1 c hc).2.1,
         ((hps kv hkv).2.1 c hc).2.2.1, ((hps kv hkv).2.1 c hc).2.2.2.1⟩,
       fun c hc => ⟨((hps kv hkv).2.2 c hc).1, ((hps kv hkv).2.2 c hc).2.1,
         ((hps kv hkv).2.2 c hc).2.2.1⟩⟩)]
    rw [qsFirstGo_of_nodup ps [] (fun kv _ => by simp) hkeys]

end Vpn

namespace Vpn

theorem roundtrip_vless (u host rem : Str) (port : ℤ) (tlsF : Bool)
    (sniF pwF : Option Str) (ps : List (Str × Str))
    (hu0 : u ≠ [])
    (hu1 : ∀ c ∈ u, ¬(c = '@') ∧ ¬(c = '#') ∧ isPySpace c = false)
    (hh0 : host ≠ [])
    (hh1 : ∀ c ∈ host, ¬(c = ':') ∧ ¬(c = '#') ∧ isPySpace c = false)
    (hport : 0 ≤ port)
    (hkeys : (ps.map Prod.fst).Nodup)
    (hps : ∀ kv ∈ ps, kv.2 ≠ [] ∧ ¬(kv.1 = "uuid".toList) ∧
      (∀ c ∈ kv.1, ¬(c = '&') ∧ ¬(c = '=') ∧ ¬(c = '%') ∧ ¬(c = '+') ∧
        ¬(c = '#') ∧ isPySpace c = false) ∧
      (∀ c ∈ kv.2, ¬(c = '&') ∧ ¬(c = '%') ∧ ¬(c = '+') ∧ ¬(c = '#') ∧
        isPySpace c = false))
    (hrem : ∀ c ∈ rem, ¬(c = '#') ∧ ¬(c = '%') ∧ isPySpace c = false) :
    ∃ n2, parse (rebuildUri
      { protocol := "vless".toList, host := host, port := port,
        uuid := some u, password := pwF, remark := rem, tls := tlsF,
        sni := sniF, extra := ps.map (fun kv => (kv.1, PyVal.str kv.2)) }
      Option.none) = some n2 ∧
      n2.protocol = "vless".toList ∧ n2.host = host ∧ n2.port = port ∧
      n2.uuid = some u ∧ n2.remark = rem ∧
      n2.extra = ps.map (fun kv => (kv.1, PyVal.str kv.2)) := by
  have hfilter : (ps.map (fun kv => (kv.1, PyVal.str kv.2))).filter
      (fun kv => !(kv.1 = "uuid".toList)) =
      ps.map (fun kv => (kv.1, PyVal.str kv.2)) := by
    apply List.filter_eq_self.2
    intro kv hkv
    obtain ⟨kv0, hkv0, rfl⟩ := List.mem_map.1 hkv
    simp only [Bool.not_eq_true', decide_eq_false_iff_not]
    exact (hps kv0 hkv0).2.1
  have hmapfmt : ((ps.map (fun kv => (kv.1, PyVal.str kv.2))).map
      (fun kv => kv.1 ++ '=' :: pyValStr kv.2)) =
      ps.map (fun kv => kv.1 ++ '=' :: kv.2) := by
    rw [List.map_map]
    rfl
  have hint : intToStr port = natToStr port.toNat := by
    unfold intToStr
    rw [if_neg (by omega)]
  have hrebuild : rebuildUri
      { protocol := "vless".toList, host := host, port := port,
        uuid := some u, password := pwF, remark := rem, tls := tlsF,
        sni := sniF, extra := ps.map (fun kv => (kv.1, PyVal.str kv.2)) }
      Option.none =
      "vless://".toList ++ (u ++ '@' :: (host ++ ':' ::
        (natToStr port.toNat ++
          ((if (joinAmp (ps.map (fun kv => kv.1 ++ '=' :: kv.2))).isEmpty
              then []
              else '?' :: joinAmp (ps.map (fun kv => kv.1 ++ '=' :: kv.2))) ++
           (if rem.isEmpty then [] else '#' :: rem))))) := by
    simp only [rebuildUri]
    split
    · rw [hfilter, hmapfmt, hint]
      simp [List.append_assoc, optStr]
    · rename_i hfalse
      exact absurd trivial hfalse
  have hQc : (ps = [] ∧
        (if (joinAmp (ps.map (fun kv => kv.1 ++ '=' :: kv.2))).isEmpty
          then ([] : Str)
          else '?' :: joinAmp (ps.map (fun kv => kv.1 ++ '=' :: kv.2))) = [])
      ∨ (ps ≠ [] ∧
        (if (joinAmp (ps.map (fun kv => kv.1 ++ '=' :: kv.2))).isEmpty
          then ([] : Str)
          else '?' :: joinAmp (ps.map (fun kv => kv.1 ++ '=' :: kv.2))) =
          '?' :: joinAmp (ps.map (fun kv => kv.1 ++ '=' :: kv.2))) := by
    cases ps with
    | nil => exact Or.inl ⟨rfl, rfl⟩
    | cons kv r =>
        refine Or.inr ⟨by simp, ?_⟩
        rw [if_neg ?_]
        rw [List.map_cons, isEmpty_false_of_ne _
          (joinAmp_cons_ne_nil _ _ (by simp))]
        simp
  have hRc : (rem = [] ∧ (if rem.isEmpty then ([] : Str) else '#' :: rem) = [])
      ∨ (rem ≠ [] ∧
        (if rem.isEmpty then ([] : Str) else '#' :: rem) = '#' :: rem) := by
    cases rem with
    | nil => exact Or.inl ⟨rfl, rfl⟩
    | cons c r => exact Or.inr ⟨by simp, rfl⟩
  have hspace : ∀ c ∈ ("vless://".toList ++ (u ++ '@' :: (host ++ ':' ::
      (natToStr port.toNat ++
        ((if (joinAmp (ps.map (fun kv => kv.1 ++ '=' :: kv.2))).isEmpty
            then []
            else '?' :: joinAmp (ps.map (fun kv => kv.1 ++ '=' :: kv.2))) ++
         (if rem.isEmpty then [] else '#' :: rem)))))),
      isPySpace c = false := by
    intro c hc
    rcases List.mem_append.1 hc with h | h
    · revert h
      exact (by decide : ∀ c ∈ "vless://".toList, isPySpace c = false) c
    · rcases List.mem_append.1 h with h | h
      · exact (hu1 c h).2.2
      · rcases List.mem_cons.1 h with rfl | h
        · decide
        · rcases List.mem_append.1 h with h | h
          · exact (hh1 c h).2.2
          · rcases List.mem_cons.1 h with rfl | h
            · decide
            · rcases List.mem_append.1 h with h | h
              · exact digit_not_space c (natToStr_digits _ c h)
              · rcases List.mem_append.1 h with h | h
                · rcases hQc with ⟨_, hq⟩ | ⟨_, hq⟩ <;> rw [hq] at h
                  · simp at h
                  · rcases List.mem_cons.1 h with rfl | h
                    · decide
                    · rcases mem_joinAmp _ _ h with rfl | ⟨x, hx, hcx⟩
                      · decide
                      · obtain ⟨kv, hkv, rfl⟩ := List.mem_map.1 hx
                        rcases List.mem_append.1 hcx with h3 | h3
                        · exact ((hps kv hkv).2.2.1 c h3).2.2.2.2.2
                        · rcases List.mem_cons.1 h3 with rfl | h3
                          · decide
                          · exact ((hps kv hkv).2.2.2 c h3).2.2.2.2
                · rcases hRc with ⟨_, hr⟩ | ⟨_, hr⟩ <;> rw [hr] at h
                  · simp at h
                  · rcases List.mem_cons.1 h with rfl | h
                    · decide
                    · exact (hrem c h).2.2
  have hparse : parse (rebuildUri
      { protocol := "vless".toList, host := host, port := port,
        uuid := some u, password := pwF, remark := rem, tls := tlsF,
        sni := sniF, extra := ps.map (fun kv => (kv.1, PyVal.str kv.2)) }
      Option.none) =
      some { protocol := "vless".toList, host := host,
             port := (port.toNat : ℤ), uuid := some u,
             password := Option.none, remark := rem,
             tls := decide (((ps.find? (fun kv =>
               kv.1 = "security".toList)).map (fun x => x.2)) =
                 some "tls".toList),
             sni := (ps.find? (fun kv => kv.1 = "sni".toList)).map
               (fun x => x.2),
             extra := ps.map (fun kv => (kv.1, PyVal.str kv.2)) } := by
    rw [hrebuild]
    simp only [parse]
    rw [pyStrip_of_no_space _ hspace]
    rw [if_pos (hasPfx_append_self "vless://".toList _)]
    exact parseVless_rebuilt u host rem port.toNat ps _ _
      hu0 (fun c hc => (hu1 c hc).1) (fun c hc => (hu1 c hc).2.1)
      hh0 (fun c hc => (hh1 c hc).1) (fun c hc => (hh1 c hc).2.1)
      hkeys
      (fun kv hkv => ⟨(hps kv hkv).1,
        fun c hc => ⟨((hps kv hkv).2.2.1 c hc).1,
          ((hps kv hkv).2.2.1 c hc).2.1, ((hps kv hkv).2.2.1 c hc).2.2.1,
          ((hps kv hkv).2.2.1 c hc).2.2.2.1,
          ((hps kv hkv).2.2.1 c hc).2.2.2.2.1⟩,
        fun c hc => ⟨((hps kv hkv).2.2.2 c hc).1,
          ((hps kv hkv).2.2.2 c hc).2.1, ((hps kv hkv).2.2.2 c hc).2.2.1,
          ((hps kv hkv).2.2.2 c hc).2.2.2.1⟩⟩)
      hrem hQc hRc
  exact ⟨_, hparse, rfl, rfl, Int.toNat_of_nonneg hport, rfl, rfl, rfl⟩

end Vpn

namespace Vpn

theorem mem_utf8Encode : ∀ (s : Str) (b : ℕ), b ∈ utf8Encode s → b < 256 := by
  intro s
  induction s with
  | nil => intro b hb; simp [utf8Encode] at hb
  | cons c cs ih =>
      intro b hb
      have hstep : utf8Encode (c :: cs) = utf8EncodeChar c ++ utf8Encode cs :=
        rfl
      rw [hstep] at hb
      rcases List.mem_append.1 hb with h | h
      · exact utf8EncodeChar_bytes_lt c b h
      · exact ih b h

theorem intToStr_char_facts (i : ℤ) : ∀ c ∈ intToStr i,
    ¬(c = '#') ∧ ¬(c = ':') ∧ ¬(c = '@') ∧ isPySpace c = false := by
  unfold intToStr
  split
  · intro c hc
    rcases List.mem_cons.1 hc with rfl | h
    · exact ⟨by decide, by decide, by decide, by decide⟩
    · have hb := natToStr_toNat_bounds _ c h
      refine ⟨?_, ?_, ?_, isPySpace_toNat c (by omega) (by omega)⟩
      all_goals intro he
      all_goals rw [he] at hb
      all_goals revert hb
      all_goals decide
  · intro c hc
    have hb := natToStr_toNat_bounds _ c hc
    refine ⟨?_, ?_, ?_, isPySpace_toNat c (by omega) (by omega)⟩
    all_goals intro he
    all_goals rw [he] at hb
    all_goals revert hb
    all_goals decide

theorem roundtrip_ss (host m pw rem : Str) (port : ℤ)
    (hm : ∀ c ∈ m, ¬(c = ':'))
    (hh1 : ∀ c ∈ host, ¬(c = ':') ∧ ¬(c = '#') ∧ isPySpace c = false)
    (hrem : ∀ c ∈ rem, ¬(c = '#') ∧ ¬(c = '%') ∧ isPySpace c = false) :
    parse (rebuildUri
      { protocol := "ss".toList, host := host, port := port,
        uuid := Option.none, password := some pw, remark := rem,
        tls := false, sni := Option.none,
        extra := [("method".toList, PyVal.str m)] } Option.none) =
      some { protocol := "ss".toList, host := host, port := port,
             uuid := Option.none, password := some pw, remark := rem,
             tls := false, sni := Option.none,
             extra := [("method".toList, PyVal.str m)] } := by
  have hbytes : ∀ x ∈ utf8Encode (m ++ ':' :: pw), x < 256 :=
    fun x hx => mem_utf8Encode _ x hx
  have hb64 := b64Encode_char_facts (utf8Encode (m ++ ':' :: pw)) hbytes
  have hib := intToStr_char_facts port
  have hrebuild : rebuildUri
      { protocol := "ss".toList, host := host, port := port,
        uuid := Option.none, password := some pw, remark := rem,
        tls := false, sni := Option.none,
        extra := [("method".toList, PyVal.str m)] } Option.none =
      "ss://".toList ++ (b64Encode (utf8Encode (m ++ ':' :: pw)) ++
        '@' :: (host ++ ':' :: (intToStr port ++
          (if rem.isEmpty then [] else '#' :: rem)))) := by
    simp only [rebuildUri]
    split
    · rename_i h; exact absurd h (by decide)
    · split
      · rename_i h; exact absurd h (by decide)
      · split
        · simp [List.append_assoc, optStr, Bag.get, List.find?, pyValStr]
        · rename_i h; exact absurd (by decide) h
  have hAhash : ∀ c ∈ ("ss://".toList ++
      (b64Encode (utf8Encode (m ++ ':' :: pw)) ++
        '@' :: (host ++ ':' :: intToStr port))), ¬(c = '#') := by
    intro c hc
    rcases List.mem_append.1 hc with h | h
    · intro he; subst he; exact absurd h (by decide)
    · rcases List.mem_append.1 h with h | h
      · exact (hb64 c h).2.2.1
      · rcases List.mem_cons.1 h with rfl | h
        · decide
        · rcases List.mem_append.1 h with h | h
          · exact (hh1 c h).2.1
          · rcases List.mem_cons.1 h with rfl | h
            · decide
            · exact (hib c h).1
  have hsplit : hashSplit ("ss://".toList ++
      (b64Encode (utf8Encode (m ++ ':' :: pw)) ++
        '@' :: (host ++ ':' :: (intToStr port ++
          (if rem.isEmpty then [] else '#' :: rem))))) =
      ("ss://".toList ++ (b64Encode (utf8Encode (m ++ ':' :: pw)) ++
        '@' :: (host ++ ':' :: intToStr port)), rem) := by
    rcases he : rem with _ | ⟨c0, r0⟩
    · rw [show (if ([] : Str).isEmpty then ([] : Str) else '#' :: []) = []
        from rfl]
      rw [show (intToStr port ++ ([] : Str)) = intToStr port from
        List.append_nil _]
      exact hashSplit_no_hash _ hAhash
    · rw [← he]
      rw [show (if rem.isEmpty then ([] : Str) else '#' :: rem) = '#' :: rem
        from by rw [isEmpty_false_of_ne rem (by rw [he]; simp)]; rfl]
      have hassoc : ("ss://".toList ++
          (b64Encode (utf8Encode (m ++ ':' :: pw)) ++
            '@' :: (host ++ ':' :: (intToStr port ++ '#' :: rem)))) =
          ("ss://".toList ++ (b64Encode (utf8Encode (m ++ ':' :: pw)) ++
            '@' :: (host ++ ':' :: intToStr port))) ++ '#' :: rem := by
        simp [List.append_assoc]
      rw [hassoc]
      unfold hashSplit
      simp only [splitLast_last_sep '#' _ rem (fun c hc => (hrem c hc).1)]
      rw [pyStrip_of_no_space rem (fun c hc => (hrem c hc).2.2),
        unquote_no_pct rem (fun c hc => (hrem c hc).2.1)]
  have hspace : ∀ c ∈ ("ss://".toList ++
      (b64Encode (utf8Encode (m ++ ':' :: pw)) ++
        '@' :: (host ++ ':' :: (intToStr port ++
          (if rem.isEmpty then [] else '#' :: rem))))),
      isPySpace c = false := by
    intro c hc
    rcases List.mem_append.1 hc with h | h
    · revert h
      exact (by decide : ∀ c ∈ "ss://".toList, isPySpace c = false) c
    · rcases List.mem_append.1 h with h | h
      · exact (hb64 c h).2.2.2
      · rcases List.mem_cons.1 h with rfl | h
        · decide
        · rcases List.mem_append.1 h with h | h
          · exact (hh1 c h).2.2
          · rcases List.mem_cons.1 h with rfl | h
            · decide
            · rcases List.mem_append.1 h with h | h
              · exact (hib c h).2.2.2
              · rcases hre : rem.isEmpty with _ | _
                · rw [hre] at h
                  rcases List.mem_cons.1 h with rfl | h2
                  · decide
                  · exact (hrem c h2).2.2
                · rw [hre] at h
                  simp at h
  have hdec : (b64Decode (b64Encode (utf8Encode (m ++ ':' :: pw)))).bind
      utf8Decode = some (m ++ ':' :: pw) := by
    rw [b64_roundtrip _ hbytes]
    simp [utf8_roundtrip]
  rw [hrebuild]
  simp only [parse]
  rw [pyStrip_of_no_space _ hspace]
  rw [if_neg (show ¬(hasPfx "vless://".toList ("ss://".toList ++
      (b64Encode (utf8Encode (m ++ ':' :: pw)) ++
        '@' :: (host ++ ':' :: (intToStr port ++
          (if rem.isEmpty then [] else '#' :: rem))))) = true) from
    fun h => Bool.noConfusion h)]
  rw [if_neg (show ¬(hasPfx "vmess://".toList ("ss://".toList ++
      (b64Encode (utf8Encode (m ++ ':' :: pw)) ++
        '@' :: (host ++ ':' :: (intToStr port ++
          (if rem.isEmpty then [] else '#' :: rem))))) = true) from
    fun h => Bool.noConfusion h)]
  rw [if_pos (hasPfx_append_self "ss://".toList _)]
  simp only [parseSS, hsplit]
  rw [if_pos (hasPfx_append_self "ss://".toList _)]
  rw [show (("ss://".toList ++ (b64Encode (utf8Encode (m ++ ':' :: pw)) ++
      '@' :: (host ++ ':' :: intToStr port))).drop 5) =
      b64Encode (utf8Encode (m ++ ':' :: pw)) ++
        '@' :: (host ++ ':' :: intToStr port) from rfl]
  simp only [splitFirst_append_sep '@' _ _
    (fun c hc => (hb64 c hc).1)]
  simp only [hdec, splitFirst_append_sep ':' m pw hm,
    splitFirst_append_sep ':' host _ (fun c hc => (hh1 c hc).1),
    pyIntParse_intToStr]

end Vpn

namespace Vpn

theorem roundtrip_vmess (host u rem : Str) (port : ℤ) (tlsF : Bool)
    (sniF pwF : Option Str) (cfg : Bag)
    (hkeys : (cfg.map Prod.fst).Nodup)
    (hsni : Bag.get cfg "sni".toList = Option.none ∨
      ∃ s2, Bag.get cfg "sni".toList = some (.str s2)) :
    ∃ n2, parse (rebuildUri
      { protocol := "vmess".toList, host := host, port := port,
        uuid := some u, password := pwF, remark := rem, tls := tlsF,
        sni := sniF, extra := cfg } Option.none) = some n2 ∧
      n2.protocol = "vmess".toList ∧ n2.host = host ∧ n2.port = port ∧
      n2.uuid = some u ∧ n2.remark = rem ∧
      (∀ k, (Bag.get cfg k).isSome = true →
        (Bag.get n2.extra k).isSome = true) := by
  have hbytes : ∀ x ∈ utf8Encode (jsonDumps (Bag.set (Bag.set (Bag.set
      (Bag.set cfg "add".toList (.str host)) "port".toList
        (.str (intToStr port))) "id".toList (.str u)) "ps".toList
        (.str rem))), x < 256 :=
    fun x hx => mem_utf8Encode _ x hx
  have hb64 := b64Encode_char_facts _ hbytes
  have hrebuild : rebuildUri
      { protocol := "vmess".toList, host := host, port := port,
        uuid := some u, password := pwF, remark := rem, tls := tlsF,
        sni := sniF, extra := cfg } Option.none =
      "vmess://".toList ++ b64Encode (utf8Encode (jsonDumps (Bag.set
        (Bag.set (Bag.set (Bag.set cfg "add".toList (.str host))
          "port".toList (.str (intToStr port))) "id".toList (.str u))
          "ps".toList (.str rem)))) := by
    simp only [rebuildUri]
    split
    · rename_i h; exact absurd h (by decide)
    · split
      · rfl
      · rename_i h; exact absurd (by decide) h
  have hadd : Bag.get (Bag.set (Bag.set (Bag.set
      (Bag.set cfg "add".toList (.str host)) "port".toList
        (.str (intToStr port))) "id".toList (.str u)) "ps".toList
        (.str rem)) "add".toList = some (.str host) := by
    rw [bag_get_set_ne _ _ _ _ (by decide), bag_get_set_ne _ _ _ _ (by decide),
      bag_get_set_ne _ _ _ _ (by decide), bag_get_set_same]
  have hprt : Bag.get (Bag.set (Bag.set (Bag.set
      (Bag.set cfg "add".toList (.str host)) "port".toList
        (.str (intToStr port))) "id".toList (.str u)) "ps".toList
        (.str rem)) "port".toList = some (.str (intToStr port)) := by
    rw [bag_get_set_ne _ _ _ _ (by decide), bag_get_set_ne _ _ _ _ (by decide),
      bag_get_set_same]
  have hid : Bag.get (Bag.set (Bag.set (Bag.set
      (Bag.set cfg "add".toList (.str host)) "port".toList
        (.str (intToStr port))) "id".toList (.str u)) "ps".toList
        (.str rem)) "id".toList = some (.str u) := by
    rw [bag_get_set_ne _ _ _ _ (by decide), bag_get_set_same]
  have hps2 : Bag.get (Bag.set (Bag.set (Bag.set
      (Bag.set cfg "add".toList (.str host)) "port".toList
        (.str (intToStr port))) "id".toList (.str u)) "ps".toList
        (.str rem)) "ps".toList = some (.str rem) :=
    bag_get_set_same _ _ _
  have hsnieq : Bag.get (Bag.set (Bag.set (Bag.set
      (Bag.set cfg "add".toList (.str host)) "port".toList
        (.str (intToStr port))) "id".toList (.str u)) "ps".toList
        (.str rem)) "sni".toList = Bag.get cfg "sni".toList := by
    rw [bag_get_set_ne _ _ _ _ (by decide), bag_get_set_ne _ _ _ _ (by decide),
      bag_get_set_ne _ _ _ _ (by decide), bag_get_set_ne _ _ _ _ (by decide)]
  have hnodup4 : ((Bag.set (Bag.set (Bag.set
      (Bag.set cfg "add".toList (.str host)) "port".toList
        (.str (intToStr port))) "id".toList (.str u)) "ps".toList
        (.str rem)).map Prod.fst).Nodup :=
    bagSet_keys_nodup _ _ _ (bagSet_keys_nodup _ _ _ (bagSet_keys_nodup _ _ _
      (bagSet_keys_nodup _ _ _ hkeys)))
  have hloads : jsonLoads (jsonDumps (Bag.set (Bag.set (Bag.set
      (Bag.set cfg "add".toList (.str host)) "port".toList
        (.str (intToStr port))) "id".toList (.str u)) "ps".toList
        (.str rem))) = some (Bag.set (Bag.set (Bag.set
      (Bag.set cfg "add".toList (.str host)) "port".toList
        (.str (intToStr port))) "id".toList (.str u)) "ps".toList
        (.str rem)) :=
    jsonLoads_dumps _ hnodup4
  have hdec : (b64Decode (b64Encode (utf8Encode (jsonDumps (Bag.set
      (Bag.set (Bag.set (Bag.set cfg "add".toList (.str host))
        "port".toList (.str (intToStr port))) "id".toList (.str u))
        "ps".toList (.str rem)))))).bind utf8Decode =
      some (jsonDumps (Bag.set (Bag.set (Bag.set
        (Bag.set cfg "add".toList (.str host)) "port".toList
          (.str (intToStr port))) "id".toList (.str u)) "ps".toList
          (.str rem))) := by
    rw [b64_roundtrip _ hbytes]
    simp [utf8_roundtrip]
  have hspace : ∀ c ∈ ("vmess://".toList ++ b64Encode (utf8Encode
      (jsonDumps (Bag.set (Bag.set (Bag.set
        (Bag.set cfg "add".toList (.str host)) "port".toList
          (.str (intToStr port))) "id".toList (.str u)) "ps".toList
          (.str rem))))), isPySpace c = false := by
    intro c hc
    rcases List.mem_append.1 hc with h | h
    · revert h
      exact (by decide : ∀ c ∈ "vmess://".toList, isPySpace c = false) c
    · exact (hb64 c h).2.2.2
  have hparse : parse (rebuildUri
      { protocol := "vmess".toList, host := host, port := port,
        uuid := some u, password := pwF, remark := rem, tls := tlsF,
        sni := sniF, extra := cfg } Option.none) =
      some { protocol := "vmess".toList, host := host, port := port,
             uuid := some u, password := Option.none, remark := rem,
             tls := decide (Bag.get (Bag.set (Bag.set (Bag.set
               (Bag.set cfg "add".toList (.str host)) "port".toList
                 (.str (intToStr port))) "id".toList (.str u)) "ps".toList
                 (.str rem)) "tls".toList = some (.str "tls".toList)),
             sni := (Bag.get cfg "sni".toList).bind (fun v =>
               match v with
               | .str s => some s
               | _ => Option.none),
             extra := Bag.set (Bag.set (Bag.set
               (Bag.set cfg "add".toList (.str host)) "port".toList
                 (.str (intToStr port))) "id".toList (.str u)) "ps".toList
                 (.str rem) } := by
    rw [hrebuild]
    simp only [parse]
    rw [pyStrip_of_no_space _ hspace]
    rw [if_neg (show ¬(hasPfx "vless://".toList ("vmess://".toList ++
        b64Encode (utf8Encode (jsonDumps (Bag.set (Bag.set (Bag.set
          (Bag.set cfg "add".toList (.str host)) "port".toList
            (.str (intToStr port))) "id".toList (.str u)) "ps".toList
            (.str rem))))) = true) from fun h => Bool.noConfusion h)]
    rw [if_pos (hasPfx_append_self "vmess://".toList _)]
    simp only [parseVmess]
    rw [if_pos (hasPfx_append_self "vmess://".toList _)]
    rw [show (("vmess://".toList ++ b64Encode (utf8Encode (jsonDumps
        (Bag.set (Bag.set (Bag.set (Bag.set cfg "add".toList (.str host))
          "port".toList (.str (intToStr port))) "id".toList (.str u))
          "ps".toList (.str rem))))).drop 8) =
        b64Encode (utf8Encode (jsonDumps (Bag.set (Bag.set (Bag.set
          (Bag.set cfg "add".toList (.str host)) "port".toList
            (.str (intToStr port))) "id".toList (.str u)) "ps".toList
            (.str rem)))) from rfl]
    simp only [hdec, hloads, hadd, hprt, hid, hps2, hsnieq,
      Option.getD_some, pyIntOf, pyIntParse_intToStr]
    rcases hsni with hs | ⟨s2, hs⟩ <;> rw [hs] <;> rfl
  refine ⟨_, hparse, rfl, rfl, rfl, rfl, rfl, ?_⟩
  intro k hk
  exact bag_get_set_isSome _ _ _ _ (bag_get_set_isSome _ _ _ _
    (bag_get_set_isSome _ _ _ _ (bag_get_set_isSome _ _ _ _ hk)))

end Vpn

namespace Vpn

/-- C2 (amended): the round-trip contract holds only under cleanliness
conditions on the parsed fields; in general it fails (see the
counterexample).  Amended statement, per protocol: (vless) for a node
whose credential is non-empty and free of `@`/`#`/whitespace, whose host
is non-empty and free of `:`/`#`/whitespace, whose port is non-negative,
and whose params bag has distinct keys, no `uuid` key, and keys/values
free of the query metacharacters `&`/`=`(keys)/`%`/`+`/`#`/whitespace
with non-empty values, and whose remark is free of `#`/`%`/whitespace:
re-parsing the rebuilt descriptor yields a node with the same protocol,
host, port, uuid, remark and attribute bag.  (ss) for a node with a
colon-free method, a `:`-free `#`-free whitespace-free host and a clean
remark, the rebuilt descriptor re-parses to the identical node (any
integer port, any password).  (vmess) for a node whose config bag has
distinct keys and whose `sni` entry is absent or a string (within the
flat-scalar JSON model), the rebuilt descriptor re-parses to a node with
the same protocol/host/port/uuid/remark, and every key of the original
bag survives into the re-parsed bag. -/
theorem parse_rebuild_identity :
    (∀ (u host rem : Str) (port : ℤ) (tlsF : Bool) (sniF pwF : Option Str)
      (ps : List (Str × Str)),
      u ≠ [] →
      (∀ c ∈ u, ¬(c = '@') ∧ ¬(c = '#') ∧ isPySpace c = false) →
      host ≠ [] →
      (∀ c ∈ host, ¬(c = ':') ∧ ¬(c = '#') ∧ isPySpace c = false) →
      0 ≤ port →
      (ps.map Prod.fst).Nodup →
      (∀ kv ∈ ps, kv.2 ≠ [] ∧ ¬(kv.1 = "uuid".toList) ∧
        (∀ c ∈ kv.1, ¬(c = '&') ∧ ¬(c = '=') ∧ ¬(c = '%') ∧ ¬(c = '+') ∧
          ¬(c = '#') ∧ isPySpace c = false) ∧
        (∀ c ∈ kv.2, ¬(c = '&') ∧ ¬(c = '%') ∧ ¬(c = '+') ∧ ¬(c = '#') ∧
          isPySpace c = false)) →
      (∀ c ∈ rem, ¬(c = '#') ∧ ¬(c = '%') ∧ isPySpace c = false) →
      ∃ n2, parse (rebuildUri
        { protocol := "vless".toList, host := host, port := port,
          uuid := some u, password := pwF, remark := rem, tls := tlsF,
          sni := sniF, extra := ps.map (fun kv => (kv.1, PyVal.str kv.2)) }
        Option.none) = some n2 ∧
        n2.protocol = "vless".toList ∧ n2.host = host ∧ n2.port = port ∧
        n2.uuid = some u ∧ n2.remark = rem ∧
        n2.extra = ps.map (fun kv => (kv.1, PyVal.str kv.2))) ∧
    (∀ (host m pw rem : Str) (port : ℤ),
      (∀ c ∈ m, ¬(c = ':')) →
      (∀ c ∈ host, ¬(c = ':') ∧ ¬(c = '#') ∧ isPySpace c = false) →
      (∀ c ∈ rem, ¬(c = '#') ∧ ¬(c = '%') ∧ isPySpace c = false) →
      parse (rebuildUri
        { protocol := "ss".toList, host := host, port := port,
          uuid := Option.none, password := some pw, remark := rem,
          tls := false, sni := Option.none,
          extra := [("method".toList, PyVal.str m)] } Option.none) =
        some { protocol := "ss".toList, host := host, port := port,
               uuid := Option.none, password := some pw, remark := rem,
               tls := false, sni := Option.none,
               extra := [("method".toList, PyVal.str m)] }) ∧
    (∀ (host u rem : Str) (port : ℤ) (tlsF : Bool) (sniF pwF : Option Str)
      (cfg : Bag),
      (cfg.map Prod.fst).Nodup →
      (Bag.get cfg "sni".toList = Option.none ∨
        ∃ s2, Bag.get cfg "sni".toList = some (.str s2)) →
      ∃ n2, parse (rebuildUri
        { protocol := "vmess".toList, host := host, port := port,
          uuid := some u, password := pwF, remark := rem, tls := tlsF,
          sni := sniF, extra := cfg } Option.none) = some n2 ∧
        n2.protocol = "vmess".toList ∧ n2.host = host ∧ n2.port = port ∧
        n2.uuid = some u ∧ n2.remark = rem ∧
        (∀ k, (Bag.get cfg k).isSome = true →
          (Bag.get n2.extra k).isSome = true)) :=
  ⟨fun u host rem port tlsF sniF pwF ps h1 h2 h3 h4 h5 h6 h7 h8 =>
      roundtrip_vless u host rem port tlsF sniF pwF ps h1 h2 h3 h4 h5 h6 h7 h8,
   fun host m pw rem port h1 h2 h3 =>
      roundtrip_ss host m pw rem port h1 h2 h3,
   fun host u rem port tlsF sniF pwF cfg h1 h2 =>
      roundtrip_vmess host u rem port tlsF sniF pwF cfg h1 h2⟩

/-- Concrete witness for the ss clause of the amended round-trip: a
shadowsocks node with method `aes`, password `p`, host `h`, port 443 and
remark `r` survives rebuild + re-parse unchanged. -/
theorem parse_rebuild_identity_witness :
    parse (rebuildUri
      { protocol := "ss".toList, host := "h".toList, port := 443,
        uuid := Option.none, password := some "p".toList,
        remark := "r".toList, tls := false, sni := Option.none,
        extra := [("method".toList, PyVal.str "aes".toList)] }
      Option.none) =
      some { protocol := "ss".toList, host := "h".toList, port := 443,
             uuid := Option.none, password := some "p".toList,
             remark := "r".toList, tls := false, sni := Option.none,
             extra := [("method".toList, PyVal.str "aes".toList)] } :=
  parse_rebuild_identity.2.1 "h".toList "aes".toList "p".toList "r".toList
    443 (by decide) (by decide) (by decide)

end Vpn
